import Mathlib

/-!
# Verification of the ARC reaction module (`arc/reaction.py`)

This file shallowly embeds the `ARCReaction` class of `arc/reaction.py` in
Lean 4 and proves/refutes the specification claims about it.

Modelling conventions:
* Python `str` values are modelled as `List Char` (a Python string is a
  sequence of characters); `str.split`, `str.count`, `str.startswith`,
  `str.endswith`, `in` and `join` are given faithful `List Char`
  implementations (`splitOnL`, `countSubL`, `<+:`, `<:+`, `<:+:`, `joinSep`).
* Python `None` becomes `Option.none`; exceptions become `Except ArcErr`.
* Molecular geometries (xyz dicts / mol graphs) are modelled by their
  ordered list of element symbols, which is all the reaction code inspects
  (stoichiometric replication and elemental-composition comparison); the
  newline glue of `xyz_to_str(xyz) + '\n'` is formatting only and carries
  no composition, so it is dropped.
* External collaborators that are not part of this repository's sources
  (RMG, qcelemental, the species module, settings) are modelled as opaque
  data/capability parameters or, where their behaviour decides a claim,
  modelled from the spec (each such definition says so in its doc comment).
-/

set_option linter.unusedVariables false

namespace ARC

/-! ## Part A: definitions -/

/-! ### Characters and the string model -/

/-- The space character (written via its code point). -/
def blank : Char := Char.ofNat 32

/-- The plus character. -/
def plusChar : Char := Char.ofNat 43

/-- The left-angle character, first character of the arrow token. -/
def ltChar : Char := Char.ofNat 60

/-- `self.plus = ' + '` (reaction.py line 96). -/
def plusSep : List Char := " + ".data

/-- `self.arrow = ' <=> '` (reaction.py line 95). -/
def arrowSep : List Char := " <=> ".data

/-- The bare arrow `'<=>'` used by `get_species_count` (line 625). -/
def arrowBare : List Char := "<=>".data

/-- Python `s.split(sep)` on `List Char` (non-overlapping, leftmost first;
`sep` is never empty at any call site — `str.split('')` raises in Python,
and an empty `sep` here is treated as never matching). -/
def splitOnL (sep : List Char) : List Char → List (List Char)
  | [] => [[]]
  | c :: rest =>
    if h : sep ≠ [] ∧ sep <+: (c :: rest) then
      [] :: splitOnL sep ((c :: rest).drop sep.length)
    else
      (splitOnL sep rest).modifyHead (c :: ·)
termination_by l => l.length
decreasing_by
  · simp only [List.length_drop, List.length_cons]
    have : 0 < sep.length := List.length_pos.mpr h.1
    omega
  · simp only [List.length_cons]; omega

/-- Python `s.count(sub)` on `List Char`: number of non-overlapping
occurrences, scanning from the left (`sub` is never empty at any call
site; an empty `sub` here never matches). -/
def countSubL (pat : List Char) : List Char → Nat
  | [] => 0
  | c :: rest =>
    if h : pat ≠ [] ∧ pat <+: (c :: rest) then
      1 + countSubL pat ((c :: rest).drop pat.length)
    else
      countSubL pat rest
termination_by l => l.length
decreasing_by
  · simp only [List.length_drop, List.length_cons]
    have : 0 < pat.length := List.length_pos.mpr h.1
    omega
  · simp only [List.length_cons]; omega

/-- Python `sep.join(tokens)` on `List Char`. -/
def joinSep (sep : List Char) : List (List Char) → List Char
  | [] => []
  | [t] => t
  | t :: ts => t ++ sep ++ joinSep sep ts

/-- Characters a species label may not contain for the label grammar to be
unambiguous: the space, the plus and the left angle (cf. spec §6: "tokens
are non-empty, no embedded delimiter substrings"). -/
def badChars : List Char := " +<".data

/-- A well-formed species-label token: non-empty and free of delimiter
characters. -/
def goodToken (t : List Char) : Prop := t ≠ [] ∧ ∀ c ∈ t, c ∉ badChars

instance : DecidablePred goodToken := fun t =>
  inferInstanceAs (Decidable (t ≠ [] ∧ ∀ c ∈ t, c ∉ badChars))

/-- The composed label `'{r1 + r2} <=> {p1 + p2}'`
(`self.arrow.join([self.plus.join(...), self.plus.join(...)])`,
lines 256-257). -/
def composeLabel (rl pl : List (List Char)) : List Char :=
  joinSep plusSep rl ++ arrowSep ++ joinSep plusSep pl

/-! ### The multiplicity resolver (`determine_rxn_multiplicity`, lines 307-419) -/

/-- Observable outcome of `determine_rxn_multiplicity`:
either the preset multiplicity is kept untouched, or a multiplicity is
set (with `assumed = true` when the `ASSUMING ...` warning is logged),
or a `ReactionError` is raised. -/
inductive MultOutcome where
  | unchanged (m : Nat)
  | set (m : Nat) (assumed : Bool)
  | raised
deriving DecidableEq, Repr

/-- Python `sorted` on a list of naturals (insertion sort, ascending). -/
def insertNat (x : Nat) : List Nat → List Nat
  | [] => [x]
  | y :: ys => if x ≤ y then x :: y :: ys else y :: insertNat x ys

/-- Python `sorted` on a list of naturals. -/
def sortNats (l : List Nat) : List Nat := l.foldr insertNat []

/-- Lines 311-329 (and their mirror 330-348 for the RMG branch): from one
side's species-multiplicity lists, compute the directly-set multiplicity
(when a side has exactly one species) and the sorted two- or
three-element keys (`ordered_r_mult_list`, `ordered_p_mult_list`). -/
def determine_mults_pre (rm pm : List Nat) : Option Nat × List Nat × List Nat :=
  let m1 : Option Nat :=
    match rm with
    | [a] => some a
    | _ => none
  let oR : List Nat :=
    match rm with
    | [a, b] => sortNats [a, b]
    | [a, b, c] => sortNats [a, b, c]
    | _ => []
  let m2 : Option Nat :=
    match pm with
    | [a] => some a
    | _ => m1
  let oP : List Nat :=
    match pm with
    | [a, b] => sortNats [a, b]
    | [a, b, c] => sortNats [a, b, c]
    | _ => []
  (m2, oR, oP)

/-- The fixed spin-combination table, lines 350-418, in source order.
The `[1,2,3]` branch reproduces the source faithfully: the
product-pattern-disambiguated candidate (`overwritten` below) is computed
but then unconditionally overwritten by `self.multiplicity = 2` and the
`ASSUMING a multiplicity of 2` warning (lines 409-416). -/
def multiplicity_table (rKey pKey : List Nat) : MultOutcome :=
  if rKey = [1, 1] then .set 1 false
  else if rKey = [1, 2] then .set 2 false
  else if rKey = [2, 2] then
    if pKey = [1, 1] ∨ pKey = [1, 1, 1] then .set 1 false
    else if pKey = [1, 3] ∨ pKey = [1, 1, 3] then .set 3 false
    else .set 1 true
  else if rKey = [1, 3] then .set 3 false
  else if rKey = [2, 3] then
    if pKey = [1, 2] ∨ pKey = [1, 1, 2] then .set 2 false
    else if pKey = [1, 4] ∨ pKey = [1, 1, 4] then .set 4 false
    else .set 2 true
  else if rKey = [3, 3] then
    if pKey = [1, 1] ∨ pKey = [1, 1, 1] then .set 1 false
    else if pKey = [1, 3] ∨ pKey = [1, 1, 3] then .set 3 false
    else if pKey = [1, 5] ∨ pKey = [1, 1, 5] then .set 5 false
    else .set 3 true
  else if rKey = [1, 1, 1] then .set 1 false
  else if rKey = [1, 1, 2] then .set 2 false
  else if rKey = [1, 1, 3] then .set 3 false
  else if rKey = [1, 2, 2] then
    if pKey = [1, 1] ∨ pKey = [1, 1, 1] then .set 1 false
    else if pKey = [1, 3] ∨ pKey = [1, 1, 3] then .set 3 false
    else .set 1 true
  else if rKey = [2, 2, 2] then
    if pKey = [1, 2] ∨ pKey = [1, 1, 2] then .set 2 false
    else if pKey = [1, 4] ∨ pKey = [1, 1, 4] then .set 4 false
    else .set 2 true
  else if rKey = [1, 2, 3] then
    let overwritten : Option Nat :=
      if pKey = [1, 2] ∨ pKey = [1, 1, 2] then some 2
      else if pKey = [1, 4] ∨ pKey = [1, 1, 4] then some 4
      else none
    .set 2 true
  else .raised

/-- `determine_rxn_multiplicity` (lines 307-419) on the data it inspects:
the preset `self.multiplicity`, the multiplicity lists of
`self.r_species`/`self.p_species`, and (for the `elif` branch, lines
330-348) the multiplicity lists of the RMG reaction when one is attached. -/
def determine_rxn_multiplicity (mult0 : Option Nat) (rm pm : List Nat)
    (rmgMults : Option (List Nat × List Nat)) : MultOutcome :=
  match mult0 with
  | some m => .unchanged m
  | none =>
    let pre : Option Nat × List Nat × List Nat :=
      if rm ≠ [] then determine_mults_pre rm pm
      else
        match rmgMults with
        | some (rr, pp) => determine_mults_pre rr pp
        | none => (none, [], [])
    match pre.1 with
    | some m => .set m false
    | none => multiplicity_table pre.2.1 pre.2.2

/-- The resolver as §4.3 of the spec words it (table in the spec's row
order): unambiguous rows return their fixed value; ambiguous rows are
disambiguated by the sorted product-multiplicity pattern (the patterns
named by claim C1's examples) and fall back to the listed default with an
assumed-warning; any other key raises `MultiplicityUndeterminedError`.
The `[1,2,3]` row is the spec's intended reading (claim C2): 2 or 4 by
product pattern, default 2 with a warning. -/
def spec_resolve (rKey pKey : List Nat) : MultOutcome :=
  if rKey = [1, 1] then .set 1 false
  else if rKey = [1, 2] then .set 2 false
  else if rKey = [1, 3] then .set 3 false
  else if rKey = [2, 2] then
    if pKey = [1, 1] ∨ pKey = [1, 1, 1] then .set 1 false
    else if pKey = [1, 3] ∨ pKey = [1, 1, 3] then .set 3 false
    else .set 1 true
  else if rKey = [2, 3] then
    if pKey = [1, 2] ∨ pKey = [1, 1, 2] then .set 2 false
    else if pKey = [1, 4] ∨ pKey = [1, 1, 4] then .set 4 false
    else .set 2 true
  else if rKey = [3, 3] then
    if pKey = [1, 1] ∨ pKey = [1, 1, 1] then .set 1 false
    else if pKey = [1, 3] ∨ pKey = [1, 1, 3] then .set 3 false
    else if pKey = [1, 5] ∨ pKey = [1, 1, 5] then .set 5 false
    else .set 3 true
  else if rKey = [1, 1, 1] then .set 1 false
  else if rKey = [1, 1, 2] then .set 2 false
  else if rKey = [1, 1, 3] then .set 3 false
  else if rKey = [1, 2, 2] then
    if pKey = [1, 1] ∨ pKey = [1, 1, 1] then .set 1 false
    else if pKey = [1, 3] ∨ pKey = [1, 1, 3] then .set 3 false
    else .set 1 true
  else if rKey = [2, 2, 2] then
    if pKey = [1, 2] ∨ pKey = [1, 1, 2] then .set 2 false
    else if pKey = [1, 4] ∨ pKey = [1, 1, 4] then .set 4 false
    else .set 2 true
  else if rKey = [1, 2, 3] then
    if pKey = [1, 2] ∨ pKey = [1, 1, 2] then .set 2 false
    else if pKey = [1, 4] ∨ pKey = [1, 1, 4] then .set 4 false
    else .set 2 true
  else .raised

/-! ### Data model -/

/-- An element symbol.  Geometries (xyz dicts), molecular graphs and TS
guesses are modelled by their ordered list of element symbols: the
reaction module only replicates them and compares their elemental
composition. -/
abbrev Elem := String

/-- An `ARCSpecies` as consumed by the reaction module.  Modelled from the
spec (§3, Species Reference): the species module itself is not under
`src/`.  `xyz` is the stored geometry; `conformer` is the result of the
external conformer-generation collaborator (the composition of the
species' own molecular graph); `mol` is the molecular graph. -/
structure ArcSpc where
  label : List Char
  multiplicity : Nat
  charge : Int
  xyz : Option (List Elem)
  conformer : Option (List Elem)
  mol : Option (List Elem)
deriving DecidableEq, Repr

/-- Modelled from the spec: `ARCSpecies.get_xyz(generate=...)` (species
module not under `src/`) returns the stored geometry when present,
otherwise generates one from the molecular graph only when `generate`
is set; a species with no geometry at all yields `None`. -/
def getXyz (s : ArcSpc) (generate : Bool) : Option (List Elem) :=
  match s.xyz with
  | some x => some x
  | none => if generate then s.conformer else none

/-- An RMG `Species` (external collaborator): a label and a molecular
graph (`molecule[0]`), with the multiplicity the reaction module reads
from it. -/
structure RMGSpc where
  label : List Char
  mol : List Elem
  multiplicity : Nat
deriving DecidableEq, Repr

/-- An RMG `Reaction` (external collaborator). -/
structure RMGReaction where
  reactants : List RMGSpc
  products : List RMGSpc
deriving DecidableEq, Repr

/-- The exception kinds raised by the modelled code paths
(`InputError`, `ReactionError`, Python `ValueError`/`AttributeError`/
`TypeError`). -/
inductive ArcErr where
  | inputError
  | reactionError
  | valueError
  | attributeError
  | typeError
deriving DecidableEq, Repr

/-- The `ARCReaction` object: the fields of reaction.py that the modelled
methods read or write.  `atom_map_cache` is `self._atom_map`. -/
structure RxnObj where
  label : List Char
  reactants : Option (List (List Char))
  products : Option (List (List Char))
  r_species : List ArcSpc
  p_species : List ArcSpc
  ts_species : Option ArcSpc
  rmg_reaction : Option RMGReaction
  multiplicity : Option Nat
  charge : Int
  index : Option Int
  family : Option (List Char)
  family_own_reverse : Int
  long_kinetic_description : List Char
  ts_methods : List (List Char)
  ts_xyz_guess : List (List Elem)
  ts_label : Option (List Char)
  preserve_param_in_scan : Option (List (Int × Int))
  atom_map_cache : Option (List Nat)
deriving DecidableEq, Repr

/-- The reactant/product multiplicity pair the RMG `elif` branch of
`determine_rxn_multiplicity` (lines 330-348) reads. -/
def rmgMultsOf (r : RxnObj) : Option (List Nat × List Nat) :=
  r.rmg_reaction.map fun g =>
    (g.reactants.map (·.multiplicity), g.products.map (·.multiplicity))

/-- `determine_rxn_multiplicity` as a method on the object: it only ever
writes `self.multiplicity` (every assignment in lines 307-419 targets that
attribute), or raises `ReactionError`. -/
def determine_rxn_multiplicity_obj (r : RxnObj) : Except ArcErr RxnObj :=
  match determine_rxn_multiplicity r.multiplicity
      (r.r_species.map (·.multiplicity)) (r.p_species.map (·.multiplicity))
      (rmgMultsOf r) with
  | .unchanged _ => .ok r
  | .set m _ => .ok { r with multiplicity := some m }
  | .raised => .error .reactionError

/-! ### Label/reactants/products derivation and construction -/

/-- `rmg_reaction_from_arc_species` (lines 284-297): when no RMG reaction
is attached, both species lists are non-empty and every species has a
molecular graph, synthesize an RMG reaction carrying the species' labels
and graphs. -/
def rmg_reaction_from_arc_species (r : RxnObj) : RxnObj :=
  if r.rmg_reaction = none ∧ r.r_species ≠ [] ∧ r.p_species ≠ [] ∧
      ∀ s ∈ r.r_species ++ r.p_species, s.mol.isSome then
    let g : RMGReaction :=
      ⟨r.r_species.map (fun s => ⟨s.label, s.mol.getD [], s.multiplicity⟩),
       r.p_species.map (fun s => ⟨s.label, s.mol.getD [], s.multiplicity⟩)⟩
    { r with rmg_reaction := some g }
  else r

/-- `ARCSpecies(label=spc.label, mol=spc.molecule[0])` (lines 304-305):
modelled from the spec, an ARC species built from an RMG species carries
its label and graph, has no stored geometry yet, and conformer generation
would produce a geometry with the graph's own composition. -/
def arcSpcOfRmg (s : RMGSpc) : ArcSpc :=
  ⟨s.label, s.multiplicity, 0, none, some s.mol, some s.mol⟩

/-- `arc_species_from_rmg_reaction` (lines 299-305): populate
`r_species`/`p_species` from the attached RMG reaction when both are
still empty. -/
def arc_species_from_rmg_reaction (r : RxnObj) : RxnObj :=
  match r.rmg_reaction with
  | some g =>
    if r.r_species = [] ∧ r.p_species = [] then
      { r with r_species := g.reactants.map arcSpcOfRmg,
               p_species := g.products.map arcSpcOfRmg }
    else r
  | none => r

/-- `set_label_reactants_products` (lines 235-268).  First derive missing
reactants/products from the label (raising `ReactionError` when the label
has no arrow and Python `ValueError` when unpacking `label.split(arrow)`
fails) or from the RMG reaction; then derive a missing label from
whichever of reactants/products, `r_species`/`p_species` labels is
available (the `r_species` branch applies whenever either list is `None`
because the species lists are initialised to `[]`, never `None`); finally
synthesize the RMG reaction, or raise when nothing was derivable. -/
def set_label_obj (r : RxnObj) : Except ArcErr RxnObj :=
  let step1 : Except ArcErr RxnObj :=
    if r.reactants = none ∨ r.products = none then
      if r.label ≠ [] then
        if ¬ (arrowSep <:+: r.label) then .error .reactionError
        else
          match splitOnL arrowSep r.label with
          | [rs, ps] =>
            .ok { r with
              reactants := some (if plusSep <:+: rs then splitOnL plusSep rs else [rs]),
              products := some (if plusSep <:+: ps then splitOnL plusSep ps else [ps]) }
          | _ => .error .valueError
      else
        match r.rmg_reaction with
        | some g =>
          .ok { r with reactants := some (g.reactants.map (·.label)),
                       products := some (g.products.map (·.label)) }
        | none => .ok r
    else .ok r
  match step1 with
  | .error e => .error e
  | .ok r1 =>
    let r2 :=
      if r1.label = [] then
        match r1.reactants, r1.products with
        | some rl, some pl => { r1 with label := composeLabel rl pl }
        | _, _ =>
          let lbl := composeLabel (r1.r_species.map (·.label)) (r1.p_species.map (·.label))
          { r1 with label := lbl }
      else r1
    if r2.rmg_reaction = none then .ok (rmg_reaction_from_arc_species r2)
    else if r2.label = [] ∧ (r2.reactants = none ∨ r2.products = none) then
      .error .reactionError
    else .ok r2

/-- Python `str.lower` on a token (character-wise). -/
def lowerToken (t : List Char) : List Char := t.map Char.toLower

/-- Modelled from the spec: `default_ts_methods` lives in `arc/settings.py`,
which is not under `src/`; its value never reaches any claim (it is only
used when no `ts_methods` argument/key is given, and is then lower-cased). -/
def default_ts_methods : List (List Char) := []

/-! ### The stoichiometric count and the wells (`get_species_count`,
`check_atom_balance`) -/

/-- `get_species_count` (lines 611-629): pick the requested side of
`self.label.split('<=>')` (Python would raise `IndexError` on a label
without an arrow and `well = 1`; the modelled total `getD` default is
never reached for the arrow-containing labels all callers pass) and count
`well_str.startswith(label + ' ') + well_str.count(' ' + label + ' ')
+ well_str.endswith(' ' + label)`. -/
def get_species_count (lbl : List Char) (spcLabel : List Char) (well : Nat) : Nat :=
  let well_str := (splitOnL arrowBare lbl).getD well []
  (if (spcLabel ++ [blank]) <+: well_str then 1 else 0)
    + countSubL ([blank] ++ spcLabel ++ [blank]) well_str
    + (if ([blank] ++ spcLabel) <:+ well_str then 1 else 0)

/-- `(xyz_to_str(xyz) + '\n') * count` as composition: the geometry's
element list replicated `count` times. -/
def repGeom (n : Nat) (x : List Elem) : List Elem := (List.replicate n x).flatten

/-- The well-construction loops of `check_atom_balance` (lines 554-570):
concatenate each species' geometry replicated by its stoichiometric count;
when any species has no (or an empty) geometry the whole well is reset to
the empty string and the loop breaks (`none` here). -/
def buildWell (lbl : List Char) (w : Nat) : List ArcSpc → Option (List Elem)
  | [] => some []
  | s :: rest =>
    match getXyz s true with
    | some x =>
      if x = [] then none
      else
        match buildWell lbl w rest with
        | some acc => some (repGeom (get_species_count lbl s.label w) x ++ acc)
        | none => none
    | none => none

/-- The well string a given side of the record produces (`''` when not
determinable). -/
def wellOf (r : RxnObj) (w : Nat) : List Elem :=
  (buildWell r.label w (if w = 0 then r.r_species else r.p_species)).getD []

/-- Modelled from the spec: `arc.species.species.check_atom_balance`
(species module not under `src/`) compares the elemental composition of
two structures — equality of the per-element atom counts, i.e. equality
of the element multisets (§4.4). -/
def check_atom_balance_pair (e1 e2 : List Elem) : Bool :=
  decide ((e1 : Multiset Elem) = (e2 : Multiset Elem))

/-- Python truthiness of the optional `ts_xyz` argument (an `Optional[dict]`). -/
def optTruthy : Option (List Elem) → Prop
  | none => False
  | some x => x ≠ []

instance : DecidablePred optTruthy := fun o =>
  match o with
  | none => Decidable.isFalse (fun h => h)
  | some x => inferInstanceAs (Decidable (x ≠ []))

/-- Lines 572-574: the TS-xyz-user-guess checks, run only under a truthy
reactant well (`balanced_xyz_guess` stays `True` otherwise). -/
def balanced_xyz_guess (r : RxnObj) (r_well : List Elem) : Bool :=
  if r_well ≠ [] then r.ts_xyz_guess.all (fun g => check_atom_balance_pair g r_well)
  else true

/-- Lines 576-577: the reactant-well/product-well check, run only when both
wells are truthy. -/
def balanced_wells (r_well p_well : List Elem) : Bool :=
  if r_well ≠ [] ∧ p_well ≠ [] then check_atom_balance_pair r_well p_well
  else true

/-- Lines 579-580: the alternative-TS-xyz check, run only when the argument
is truthy (and the reactant well is). -/
def balanced_ts_xyz (ts_xyz : Option (List Elem)) (r_well : List Elem) : Bool :=
  if r_well ≠ [] ∧ optTruthy ts_xyz then check_atom_balance_pair (ts_xyz.getD []) r_well
  else true

/-- Lines 582-584: the TS species' mol-graph check, run only when a TS
species with a mol graph is attached. -/
def balanced_ts_species_mol (r : RxnObj) (r_well : List Elem) : Bool :=
  if r_well ≠ [] then
    match r.ts_species with
    | some ts0 =>
      match ts0.mol with
      | some m => check_atom_balance_pair m r_well
      | none => true
    | none => true
  else true

/-- Lines 586-589: the TS species' geometry check, run only when the
attached TS species has a resolvable geometry. -/
def balanced_ts_species_xyz (r : RxnObj) (r_well : List Elem) : Bool :=
  if r_well ≠ [] then
    match r.ts_species with
    | some ts0 =>
      match getXyz ts0 true with
      | some x => check_atom_balance_pair x r_well
      | none => true
    | none => true
  else true

/-- `check_atom_balance` (lines 529-609).  After
`arc_species_from_rmg_reaction`, build both wells; under a determinable
reactant well check every TS user guess, the product well (when
determinable), the alternative `ts_xyz` argument (when truthy), and the
attached TS species' mol graph and geometry; raise `ReactionError` when
any check failed unless `raise_error` is unset, in which case return
`False`; return `True` otherwise. -/
def check_atom_balance_with (r0 : RxnObj) (ts_xyz : Option (List Elem))
    (raise_error : Bool) : Except ArcErr Bool :=
  let r := arc_species_from_rmg_reaction r0
  let r_well := wellOf r 0
  let p_well := wellOf r 1
  if balanced_wells r_well p_well && balanced_ts_xyz ts_xyz r_well
      && balanced_ts_species_mol r r_well && balanced_ts_species_xyz r r_well
      && balanced_xyz_guess r r_well then .ok true
  else if raise_error then .error .reactionError
  else .ok false

/-- The record after `check_atom_balance`'s side effect: the
`arc_species_from_rmg_reaction` call on line 548 mutates `self`. -/
def populateSpecies (r : RxnObj) : RxnObj := arc_species_from_rmg_reaction r

/-- The spec's reading of §4.4/claim C6: some determinable comparison
fails.  Each comparison is determinable exactly when the code performs it
(a determinable reactant well; for the wells check also a determinable
product well; for the alternative TS xyz a truthy argument; for the TS
structure checks an attached TS species with a mol graph / geometry), and
fails when the element compositions differ. -/
def specBalanceFailure (r : RxnObj) (ts_xyz : Option (List Elem)) : Prop :=
  (wellOf r 0 ≠ [] ∧ wellOf r 1 ≠ []
      ∧ check_atom_balance_pair (wellOf r 0) (wellOf r 1) = false)
  ∨ (wellOf r 0 ≠ []
      ∧ ∃ g ∈ r.ts_xyz_guess, check_atom_balance_pair g (wellOf r 0) = false)
  ∨ (wellOf r 0 ≠ [] ∧ optTruthy ts_xyz
      ∧ check_atom_balance_pair (ts_xyz.getD []) (wellOf r 0) = false)
  ∨ (wellOf r 0 ≠ []
      ∧ ∃ ts0 m, r.ts_species = some ts0 ∧ ts0.mol = some m
        ∧ check_atom_balance_pair m (wellOf r 0) = false)
  ∨ (wellOf r 0 ≠ []
      ∧ ∃ ts0 x, r.ts_species = some ts0 ∧ getXyz ts0 true = some x
        ∧ check_atom_balance_pair x (wellOf r 0) = false)

/-! ### Construction (`__init__`, lines 82-138, non-dictionary branch) -/

/-- The freshly initialised object state of `__init__` before
`set_label_reactants_products` runs (lines 95-132). -/
def mkBase (label : List Char) (reactants products : Option (List (List Char)))
    (ts_label : Option (List Char)) (rmg : Option RMGReaction)
    (ts_methods0 : Option (List (List Char))) (ts_xyz_guess : List (List Elem))
    (multiplicity : Option Nat) (charge : Int) : RxnObj where
  label := label
  reactants := reactants
  products := products
  r_species := []
  p_species := []
  ts_species := none
  rmg_reaction := rmg
  multiplicity := multiplicity
  charge := charge
  index := none
  family := none
  family_own_reverse := 0
  long_kinetic_description := []
  ts_methods := (ts_methods0.getD default_ts_methods).map lowerToken
  ts_xyz_guess := ts_xyz_guess
  ts_label := ts_label
  preserve_param_in_scan := none
  atom_map_cache := none

/-- `ARCReaction.__init__` (non-dictionary branch): the
cannot-determine guard (lines 125-127), `set_label_reactants_products`
(line 128), the cardinality cap (lines 133-135; `len(None)` would be a
Python `TypeError`, modelled by the unreachable fall-through), and the
closing `check_atom_balance()` call (line 138), whose
`arc_species_from_rmg_reaction` side effect persists in the returned
record. -/
def mkReaction (label : List Char) (reactants products : Option (List (List Char)))
    (ts_label : Option (List Char)) (rmg : Option RMGReaction)
    (ts_methods0 : Option (List (List Char))) (ts_xyz_guess : List (List Elem))
    (multiplicity : Option Nat) (charge : Int) : Except ArcErr RxnObj :=
  if rmg = none ∧ (reactants = none ∨ products = none) ∧ label = [] then
    .error .inputError
  else
    match set_label_obj (mkBase label reactants products ts_label rmg ts_methods0
        ts_xyz_guess multiplicity charge) with
    | .error e => .error e
    | .ok st =>
      match st.reactants, st.products with
      | some rl, some pl =>
        if 3 < rl.length ∨ 3 < pl.length then .error .reactionError
        else
          let r2 := populateSpecies st
          match check_atom_balance_with st none true with
          | .error e => .error e
          | .ok _ => .ok r2
      | _, _ => .error .typeError

/-- Claim C4's invariant I2 as a check on a record: splitting the label on
the arrow and then each side on the plus yields exactly the record's
reactants and products lists. -/
def labelConsistent (r : RxnObj) : Bool :=
  match splitOnL arrowSep r.label, r.reactants, r.products with
  | [a, b], some rl, some pl =>
    decide (splitOnL plusSep a = rl ∧ splitOnL plusSep b = pl)
  | _, _, _ => false

/-- The literal reading of claim C7's formula: the count is "1 plus the
number of occurrences of the whole-token patterns `'<label> '`,
`' <label>'`, `' <label> '`" in the well segment. -/
def claimCount (lbl : List Char) (spcLabel : List Char) (well : Nat) : Nat :=
  let well_str := (splitOnL arrowBare lbl).getD well []
  1 + (countSubL (spcLabel ++ [blank]) well_str
    + countSubL ([blank] ++ spcLabel) well_str
    + countSubL ([blank] ++ spcLabel ++ [blank]) well_str)

/-! ### Attribute consistency (`check_attributes`, lines 472-527) -/

/-- Sequencing of checks that either pass or raise. -/
def exSeq (a : Except ArcErr Unit) (b : Except ArcErr RxnObj) : Except ArcErr RxnObj :=
  match a with
  | .error e => .error e
  | .ok _ => b

/-- Lines 486-501: both directions of the containment between the label's
tokens and the declared `reactants`/`products` lists, skipped when the
list is `None`. -/
def checkListSide (labelTokens : List (List Char))
    (declared : Option (List (List Char))) : Except ArcErr Unit :=
  match declared with
  | some l =>
    if (∀ x ∈ labelTokens, x ∈ l) ∧ (∀ x ∈ l, x ∈ labelTokens) then .ok ()
    else .error .reactionError
  | none => .ok ()

/-- Lines 502-514 (and the mirror 515-527): the three containment loops
between `r_species` labels, the declared list and the label's tokens.
`self.r_species` is never `None`, so the guard always passes; when the
declared list is `None`, Python's `in None` / iteration over `None`
raises `TypeError` at the first loop that touches it. -/
def checkSpcSide (labelTokens : List (List Char))
    (declared : Option (List (List Char))) (spcs : List ArcSpc) :
    Except ArcErr Unit :=
  match declared with
  | some l =>
    if (∀ s ∈ spcs, s.label ∈ l)
        ∧ (∀ x ∈ labelTokens, x ∈ spcs.map (·.label))
        ∧ (∀ x ∈ l, x ∈ spcs.map (·.label)) then .ok ()
    else .error .reactionError
  | none =>
    if spcs ≠ [] then .error .typeError
    else if ¬ (∀ x ∈ labelTokens, x ∈ ([] : List (List Char))) then
      .error .reactionError
    else .error .typeError

/-- `check_attributes` (lines 472-527): re-run
`set_label_reactants_products`, reject an empty label, a label without the
spaced arrow, or a `+` without the spaced plus; then run the four-way
containment checks between the label's tokens, `reactants`/`products` and
`r_species`/`p_species`. -/
def check_attributes (r0 : RxnObj) : Except ArcErr RxnObj :=
  match set_label_obj r0 with
  | .error e => .error e
  | .ok r =>
    if r.label = [] then .error .reactionError
    else if ¬ (arrowSep <:+: r.label) then .error .reactionError
    else if plusChar ∈ r.label ∧ ¬ (plusSep <:+: r.label) then .error .reactionError
    else
      let species_labels := splitOnL arrowSep r.label
      let reactants := splitOnL plusSep (species_labels.getD 0 [])
      let products := splitOnL plusSep (species_labels.getD 1 [])
      exSeq (checkListSide reactants r.reactants)
        (exSeq (checkListSide products r.products)
          (exSeq (checkSpcSide reactants r.reactants r.r_species)
            (exSeq (checkSpcSide products r.products r.p_species) (.ok r))))

/-! ### Persistence (`as_dict`, lines 164-190; `from_dict`, lines 192-233) -/

/-- The plain dictionary `ARCSpecies.as_dict()` produces (see
`speciesTest.py`, `test_as_dict`: a literal `dict`; species are restored
from it with `ARCSpecies(species_dict=...)`, `test_from_dict`).  Its
entries are opaque to the reaction module. -/
structure SpcDict where
  val : ArcSpc
deriving DecidableEq, Repr

/-- `spc.as_dict()` for the species entries of the reaction dictionary. -/
def spcAsDict (s : ArcSpc) : SpcDict := ⟨s⟩

/-- `r.from_dict()` as called on the stored species dictionaries in
`ARCReaction.from_dict` (lines 222-224).  A plain `dict` has no
`from_dict` method (the species module restores via
`ARCSpecies(species_dict=...)`, cf. `speciesTest.py`), so this call
raises `AttributeError` unconditionally. -/
def spcDict_from_dict_method (d : SpcDict) : Except ArcErr ArcSpc :=
  .error .attributeError

/-- The persisted reaction dictionary.  An outer `none` models an absent
key (`'key' in reaction_dict` is false); for keys that `as_dict` always
writes, the stored value may itself be `None`, hence the nested
`Option`s. -/
structure RxnDict where
  label : Option (List Char)
  index : Option (Option Int)
  multiplicity : Option (Option Nat)
  charge : Option Int
  reactants : Option (Option (List (List Char)))
  products : Option (Option (List (List Char)))
  r_species : Option (List SpcDict)
  p_species : Option (List SpcDict)
  ts_species : Option SpcDict
  atom_map : Option (List Nat)
  preserve_param_in_scan : Option (List (Int × Int))
  rmg_reaction_str : Option (List Char)
  family : Option (Option (List Char))
  family_own_reverse : Option Int
  long_kinetic_description : Option (List Char)
  ts_methods : Option (List (List Char))
  ts_xyz_guess : Option (List (List Elem))
  ts_label : Option (Option (List Char))
deriving DecidableEq, Repr

/-- `as_dict` (lines 164-190).  `ts_species`, `atom_map` and
`preserve_param_in_scan` are written only when set; the
`'rmg_reaction' in reaction_dict` condition on line 181 is checked before
the key is ever inserted, so the RMG reaction is never persisted. -/
def as_dict (r : RxnObj) : RxnDict where
  label := some r.label
  index := some r.index
  multiplicity := some r.multiplicity
  charge := some r.charge
  reactants := some r.reactants
  products := some r.products
  r_species := some (r.r_species.map spcAsDict)
  p_species := some (r.p_species.map spcAsDict)
  ts_species := r.ts_species.map spcAsDict
  atom_map := r.atom_map_cache
  preserve_param_in_scan := r.preserve_param_in_scan
  rmg_reaction_str := none
  family := some r.family
  family_own_reverse := some r.family_own_reverse
  long_kinetic_description := some r.long_kinetic_description
  ts_methods := some r.ts_methods
  ts_xyz_guess := some r.ts_xyz_guess
  ts_label := some r.ts_label

/-- `rmg_reaction_from_str` (lines 277-282): split the persisted SMILES
string and rebuild unlabeled RMG species (the external SMILES parse is
opaque; only the labels — empty — matter downstream).  Unpacking
`split(arrow)` raises `ValueError` unless there are exactly two parts. -/
def rmg_reaction_from_str (s : List Char) : Except ArcErr RMGReaction :=
  match splitOnL arrowSep s with
  | [a, b] =>
    .ok ⟨(splitOnL plusSep a).map (fun _ => ⟨[], [], 1⟩),
         (splitOnL plusSep b).map (fun _ => ⟨[], [], 1⟩)⟩
  | _ => .error .valueError

/-- `from_dict` (lines 192-233) on a fresh object (the rehydration path of
`__init__`, where `ts_label` holds the constructor argument and the
species lists are still `[]`).  Field order follows the source; failures
abort exactly where the source raises. -/
def from_dict (d : RxnDict) (ts_label0 : Option (List Char)) : Except ArcErr RxnObj :=
  let rmgE : Except ArcErr (Option RMGReaction) :=
    match d.rmg_reaction_str with
    | some s =>
      match rmg_reaction_from_str s with
      | .ok g => .ok (some g)
      | .error e => .error e
    | none => .ok none
  match rmgE with
  | .error e => .error e
  | .ok rmg0 =>
    let base : RxnObj :=
      { label := d.label.getD []
        reactants := d.reactants.getD none
        products := d.products.getD none
        r_species := []
        p_species := []
        ts_species := none
        rmg_reaction := rmg0
        multiplicity := d.multiplicity.getD none
        charge := d.charge.getD 0
        index := d.index.getD none
        family := d.family.getD none
        family_own_reverse := d.family_own_reverse.getD 0
        long_kinetic_description := []
        ts_methods := []
        ts_xyz_guess := []
        ts_label := ts_label0
        preserve_param_in_scan := none
        atom_map_cache := none }
    match set_label_obj base with
    | .error e => .error e
    | .ok st1 =>
      if st1.rmg_reaction = none ∧ (st1.reactants = none ∨ st1.products = none) then
        .error .inputError
      else
        let stE : Except ArcErr RxnObj :=
          if st1.reactants = none ∨ st1.products = none then
            match st1.rmg_reaction with
            | some g =>
              if ∀ s ∈ g.reactants ++ g.products, s.label ≠ [] then
                .ok { st1 with reactants := some (g.reactants.map (·.label)),
                               products := some (g.products.map (·.label)) }
              else .error .inputError
            | none => .error .typeError
          else .ok st1
        match stE with
        | .error e => .error e
        | .ok st2 =>
          match set_label_obj st2 with
          | .error e => .error e
          | .ok st3 =>
            let tsl : Option (List Char) :=
              match st3.ts_label with
              | none => d.ts_label.getD none
              | some t => some t
            let rsE : Except ArcErr (List ArcSpc) :=
              match d.r_species with
              | some ds => ds.mapM spcDict_from_dict_method
              | none => .ok []
            match rsE with
            | .error e => .error e
            | .ok rs =>
              let psE : Except ArcErr (List ArcSpc) :=
                match d.p_species with
                | some ds => ds.mapM spcDict_from_dict_method
                | none => .ok []
              match psE with
              | .error e => .error e
              | .ok ps =>
                let tssE : Except ArcErr (Option ArcSpc) :=
                  match d.ts_species with
                  | some sd =>
                    match spcDict_from_dict_method sd with
                    | .ok v => .ok (some v)
                    | .error e => .error e
                  | none => .ok none
                match tssE with
                | .error e => .error e
                | .ok tss =>
                  .ok { st3 with
                    ts_label := tsl
                    r_species := rs
                    p_species := ps
                    ts_species := tss
                    long_kinetic_description := d.long_kinetic_description.getD []
                    ts_methods := (d.ts_methods.getD default_ts_methods).map lowerToken
                    ts_xyz_guess := d.ts_xyz_guess.getD []
                    preserve_param_in_scan := d.preserve_param_in_scan
                    atom_map_cache := d.atom_map }

/-! ### The atom map (`atom_map` property, lines 140-151;
`get_atom_map`, lines 631-669) -/

/-- The data handed to `qcelemental.molecule.Molecule.from_data` for one
side: per-fragment geometries, the reaction's charge and multiplicity and
the per-fragment charges and multiplicities. -/
structure QCMolInput where
  fragments : List (List Elem)
  molecular_charge : Int
  molecular_multiplicity : Option Nat
  fragment_charges : List Int
  fragment_multiplicities : List Nat
deriving DecidableEq, Repr

/-- The external alignment collaborator (qcelemental): `validates` is
whether `Molecule.from_data` accepts the input (otherwise it raises a
`ValidationError`), `align` is the atom map extracted from
`products.align(ref_mol=reactants)[1]['mill'].atommap`. -/
structure AlignService where
  validates : QCMolInput → Bool
  align : QCMolInput → QCMolInput → List Nat

/-- The `from_data` input built from one side's species (lines 648-663). -/
def qcInputOf (spcs : List ArcSpc) (xyzs : List (List Elem)) (charge : Int)
    (mult : Option Nat) : QCMolInput :=
  ⟨xyzs, charge, mult, spcs.map (·.charge), spcs.map (·.multiplicity)⟩

/-- `get_atom_map` (lines 631-669): build both fragmented structures —
`xyz_to_str(species.get_xyz())` raises an uncaught `InputError` when a
species has no geometry at all — and submit them to the alignment
service; a `ValidationError` from `from_data` is caught, a warning is
logged and `None` is returned. -/
def get_atom_map (svc : AlignService) (r : RxnObj) : Except ArcErr (Option (List Nat)) :=
  match r.r_species.mapM (fun s => getXyz s true),
        r.p_species.mapM (fun s => getXyz s true) with
  | some rx, some px =>
    let reactants := qcInputOf r.r_species rx r.charge r.multiplicity
    let products := qcInputOf r.p_species px r.charge r.multiplicity
    if svc.validates reactants ∧ svc.validates products then
      .ok (some (svc.align products reactants))
    else
      .ok none
  | _, _ => .error .inputError

/-- The `atom_map` property read (lines 140-146): compute and cache the
map only when nothing is cached yet and every species has an
already-resolved geometry (`get_xyz(generate=False)`); return the cache
otherwise. -/
def atom_map_read (svc : AlignService) (r : RxnObj) :
    Except ArcErr (RxnObj × Option (List Nat)) :=
  if r.atom_map_cache = none
      ∧ ∀ s ∈ r.r_species ++ r.p_species, (getXyz s false).isSome then
    match get_atom_map svc r with
    | .ok m => .ok ({ r with atom_map_cache := m }, m)
    | .error e => .error e
  else .ok (r, r.atom_map_cache)

/-! ### Concrete objects for witnesses and counterexamples -/

/-- A species builder for concrete witnesses: label, multiplicity, stored
geometry and molecular graph. -/
def demoSpc (lbl : String) (m : Nat) (xyz : Option (List Elem)) : ArcSpc :=
  ⟨lbl.data, m, 0, xyz, none, xyz⟩

/-- A record builder for concrete witnesses: all fields the individual
witnesses do not care about are fixed. -/
def demoRxnWith (lbl : String) (reacts prods : Option (List (List Char)))
    (rs ps : List ArcSpc) (ts : Option ArcSpc) (guesses : List (List Elem))
    (mult : Option Nat) (cache : Option (List Nat)) : RxnObj where
  label := lbl.data
  reactants := reacts
  products := prods
  r_species := rs
  p_species := ps
  ts_species := ts
  rmg_reaction := none
  multiplicity := mult
  charge := 0
  index := none
  family := none
  family_own_reverse := 0
  long_kinetic_description := []
  ts_methods := []
  ts_xyz_guess := guesses
  ts_label := none
  preserve_param_in_scan := none
  atom_map_cache := cache

/-- A sample species used by concrete witnesses. -/
def demoSpcA : ArcSpc := demoSpc "A" 2 (some ["O", "H"])

/-- A sample species used by concrete witnesses. -/
def demoSpcB : ArcSpc := demoSpc "B" 2 (some ["O", "H"])

/-- A sample well-formed reaction record `A <=> B` used by concrete
witnesses. -/
def demoRxn : RxnObj :=
  demoRxnWith "A <=> B" (some ["A".data]) (some ["B".data])
    [demoSpcA] [demoSpcB] none [] (some 2) none

/-- An alignment service that accepts everything and returns the identity
map on two atoms (for witnesses). -/
def demoSvc : AlignService where
  validates := fun _ => true
  align := fun _ _ => [0, 1]

/-- An alignment service whose structural validation always fails
(for witnesses about the `ValidationError` path). -/
def demoSvcReject : AlignService where
  validates := fun _ => false
  align := fun _ _ => [0, 1]

/-! ## Part B: theorems -/

/-! ### String-model facts -/

theorem plusSep_eq : plusSep = [blank, plusChar, blank] := by decide

theorem arrowSep_eq : arrowSep = blank :: ltChar :: "=> ".data := by decide

theorem arrowBare_eq : arrowBare = ltChar :: "=>".data := by decide

theorem arrowSep_decomp : arrowSep = [blank] ++ arrowBare ++ [blank] := by decide

theorem modifyHead_modifyHead (l : List α) (f g : α → α) :
    (l.modifyHead f).modifyHead g = l.modifyHead (g ∘ f) := by
  cases l <;> rfl

theorem modifyHead_id_append (l : List (List Char)) :
    l.modifyHead (List.nil ++ ·) = l := by
  cases l <;> rfl

theorem splitOnL_ne_nil (sep s : List Char) : splitOnL sep s ≠ [] := by
  induction s using splitOnL.induct sep with
  | case1 => simp [splitOnL]
  | case2 c rest h ih =>
    rw [splitOnL]
    simp [h]
  | case3 c rest h ih =>
    rw [splitOnL]
    simp only [h, dite_false]
    cases hs : splitOnL sep rest with
    | nil => exact absurd hs ih
    | cons a l => simp [List.modifyHead]

theorem splitOnL_of_match (sep s : List Char) (h0 : sep ≠ []) (hp : sep <+: s) :
    splitOnL sep s = [] :: splitOnL sep (s.drop sep.length) := by
  cases s with
  | nil =>
    exact absurd (List.prefix_nil.mp hp) h0
  | cons c rest =>
    rw [splitOnL]
    simp [h0, hp]

theorem splitOnL_of_no_match (sep : List Char) (c : Char) (rest : List Char)
    (h : ¬ sep <+: (c :: rest)) :
    splitOnL sep (c :: rest) = (splitOnL sep rest).modifyHead (c :: ·) := by
  rw [splitOnL]
  simp [h]

/-- Scanning through a region `t` in which the pattern can match nowhere
(not even matches that start in `t` and continue into `s`) just prepends
`t` to the first piece. -/
theorem splitOnL_append_of_no_match (sep t s : List Char)
    (H : ∀ t1, t1 ≠ [] → t1 <:+ t → ¬ sep <+: (t1 ++ s)) :
    splitOnL sep (t ++ s) = (splitOnL sep s).modifyHead (t ++ ·) := by
  induction t with
  | nil => exact (modifyHead_id_append _).symm
  | cons c t ih =>
    have hnm : ¬ sep <+: (c :: (t ++ s)) := by
      have := H (c :: t) (by simp) List.suffix_rfl
      simpa using this
    rw [List.cons_append, splitOnL_of_no_match sep _ _ hnm,
      ih fun t1 h1 h2 => H t1 h1 (h2.trans (List.suffix_cons c t)),
      modifyHead_modifyHead]
    rfl

theorem splitOnL_sep_append (sep s : List Char) (h0 : sep ≠ []) :
    splitOnL sep (sep ++ s) = [] :: splitOnL sep s := by
  rw [splitOnL_of_match sep _ h0 (List.prefix_append sep s), List.drop_left]

/-- A string in which the separator can match nowhere is returned whole. -/
theorem splitOnL_single (sep s : List Char)
    (H : ∀ t1, t1 ≠ [] → t1 <:+ s → ¬ sep <+: t1) :
    splitOnL sep s = [s] := by
  have := splitOnL_append_of_no_match sep s []
    (fun t1 h1 h2 => by simpa using H t1 h1 h2)
  simpa [splitOnL] using this

/-- Python `sep in s` is false exactly when no match is possible, in which
case `s.split(sep)` is `[s]`. -/
theorem splitOnL_single_of_no_infixOf (sep s : List Char) (h : ¬ sep <:+: s) :
    splitOnL sep s = [s] :=
  splitOnL_single sep s fun t1 _ h2 hp =>
    h (List.infix_iff_prefix_suffix.mpr ⟨t1, hp, h2⟩)

/-- If splitting produced at least two pieces, the separator occurs in the
string. -/
theorem infixOf_of_splitOnL (sep s : List Char)
    (h : 2 ≤ (splitOnL sep s).length) : sep <:+: s := by
  induction s with
  | nil => simp [splitOnL] at h
  | cons c rest ih =>
    by_cases hm : sep ≠ [] ∧ sep <+: (c :: rest)
    · exact List.IsPrefix.isInfix hm.2
    · rw [splitOnL] at h
      simp only [hm, dite_false] at h
      rw [List.length_modifyHead] at h
      exact List.infix_cons (ih h)

theorem countSubL_nil (pat : List Char) : countSubL pat [] = 0 := by
  simp [countSubL]

theorem countSubL_of_no_match (pat : List Char) (c : Char) (rest : List Char)
    (h : ¬ pat <+: (c :: rest)) :
    countSubL pat (c :: rest) = countSubL pat rest := by
  rw [countSubL]
  simp [h]

theorem countSubL_append_of_no_match (pat t s : List Char)
    (H : ∀ t1, t1 ≠ [] → t1 <:+ t → ¬ pat <+: (t1 ++ s)) :
    countSubL pat (t ++ s) = countSubL pat s := by
  induction t with
  | nil => rfl
  | cons c t ih =>
    have hnm : ¬ pat <+: (c :: (t ++ s)) := by
      have := H (c :: t) (by simp) List.suffix_rfl
      simpa using this
    rw [List.cons_append, countSubL_of_no_match pat _ _ hnm,
      ih fun t1 h1 h2 => H t1 h1 (h2.trans (List.suffix_cons c t))]

theorem countSubL_self_append (pat s : List Char) (h0 : pat ≠ []) :
    countSubL pat (pat ++ s) = 1 + countSubL pat s := by
  cases pat with
  | nil => exact absurd rfl h0
  | cons c p =>
    rw [List.cons_append, countSubL]
    simp [List.prefix_append, List.drop_left]

theorem countSubL_eq_zero (pat s : List Char)
    (H : ∀ t1, t1 ≠ [] → t1 <:+ s → ¬ pat <+: t1) :
    countSubL pat s = 0 := by
  have := countSubL_append_of_no_match pat s []
    (fun t1 h1 h2 => by simpa using H t1 h1 h2)
  simpa [countSubL] using this

/-- The marker lemma: when a character `c0` occurs in neither `s` nor `t`,
the pattern `s ++ [c0]` is a prefix of `t ++ [c0] ++ rest` exactly when
`s = t`.  This is the engine behind all whole-token matching facts about
the label grammar. -/
theorem marker_isPre_iff (c0 : Char) (s t rest : List Char)
    (hs : c0 ∉ s) (ht : c0 ∉ t) :
    (s ++ [c0]) <+: (t ++ ([c0] ++ rest)) ↔ s = t := by
  constructor
  · intro h
    rcases Nat.lt_trichotomy s.length t.length with hlt | heq | hgt
    · exfalso
      have htake : s ++ [c0] = (t ++ ([c0] ++ rest)).take (s.length + 1) := by
        have := List.prefix_iff_eq_take.mp h
        simpa using this
      rw [List.take_append_eq_append_take,
        Nat.sub_eq_zero_of_le (by omega : s.length + 1 ≤ t.length),
        List.take_zero, List.append_nil] at htake
      have hmem : c0 ∈ t.take (s.length + 1) := by
        rw [← htake]; simp
      exact ht (List.take_subset _ _ hmem)
    · have htake : s ++ [c0] = (t ++ ([c0] ++ rest)).take (s.length + 1) := by
        have := List.prefix_iff_eq_take.mp h
        simpa using this
      rw [List.take_append_eq_append_take,
        List.take_of_length_le (by omega : t.length ≤ s.length + 1)] at htake
      have h1 : s.length + 1 - t.length = 1 := by omega
      rw [h1] at htake
      simp at htake
      exact htake
    · exfalso
      obtain ⟨u, hu⟩ := h
      have h2 : (t ++ ([c0] ++ rest))[t.length]? = some c0 := by
        rw [List.getElem?_append_right (Nat.le_refl t.length)]
        simp
      have h3 : (t ++ ([c0] ++ rest))[t.length]? = s[t.length]? := by
        rw [← hu, List.append_assoc, List.getElem?_append_left hgt]
      have h4 : s[t.length]? = some c0 := by rw [← h3, h2]
      rw [List.getElem?_eq_getElem hgt] at h4
      have h5 : s[t.length] = c0 := by injection h4
      exact hs (h5 ▸ List.getElem_mem hgt)
  · rintro rfl
    exact ⟨rest, by simp⟩

/-- Suffix version of the marker lemma, by reversal. -/
theorem marker_isSuf_iff (c0 : Char) (s t pre : List Char)
    (hs : c0 ∉ s) (ht : c0 ∉ t) :
    ([c0] ++ s) <:+ ((pre ++ [c0]) ++ t) ↔ s = t := by
  rw [← List.reverse_prefix]
  have he1 : ([c0] ++ s).reverse = s.reverse ++ [c0] := by simp
  have he2 : ((pre ++ [c0]) ++ t).reverse = t.reverse ++ ([c0] ++ pre.reverse) := by
    simp
  rw [he1, he2, marker_isPre_iff c0 s.reverse t.reverse pre.reverse
    (by simpa using hs) (by simpa using ht)]
  constructor
  · intro h
    have := congrArg List.reverse h
    simpa using this
  · rintro rfl; rfl

/-! ### The label grammar on well-formed tokens -/

theorem joinSep_single (sep t : List Char) : joinSep sep [t] = t := rfl

theorem joinSep_cons_cons (sep t t2 : List Char) (ts2 : List (List Char)) :
    joinSep sep (t :: t2 :: ts2) = t ++ sep ++ joinSep sep (t2 :: ts2) := rfl

theorem mem_joinSep (sep : List Char) (ts : List (List Char)) (c : Char) :
    c ∈ joinSep sep ts → (∃ t ∈ ts, c ∈ t) ∨ c ∈ sep := by
  induction ts with
  | nil => simp [joinSep]
  | cons t ts ih =>
    cases ts with
    | nil =>
      intro h
      exact Or.inl ⟨t, by simp, by simpa [joinSep_single] using h⟩
    | cons t2 ts2 =>
      intro h
      rw [joinSep_cons_cons] at h
      rcases List.mem_append.mp h with h1 | h2
      · rcases List.mem_append.mp h1 with h3 | h4
        · exact Or.inl ⟨t, by simp, h3⟩
        · exact Or.inr h4
      · rcases ih h2 with ⟨u, hu, hcu⟩ | hse
        · exact Or.inl ⟨u, by simp [hu], hcu⟩
        · exact Or.inr hse

theorem ltChar_not_mem_joinSep (ts : List (List Char))
    (hts : ∀ t ∈ ts, goodToken t) : ltChar ∉ joinSep plusSep ts := by
  intro h
  rcases mem_joinSep plusSep ts ltChar h with ⟨t, ht, hc⟩ | hp
  · exact ((hts t ht).2 ltChar hc) (by decide)
  · exact absurd hp (by decide)

/-- Inside a well-formed token (and continuing past it) the plus separator
can never match: its first character is a space. -/
theorem no_plusSep_match_in_token (t rest : List Char)
    (hg : ∀ c ∈ t, c ∉ badChars) :
    ∀ t1, t1 ≠ [] → t1 <:+ t → ¬ plusSep <+: (t1 ++ rest) := by
  intro t1 h1 h2 hp
  cases t1 with
  | nil => exact h1 rfl
  | cons c t1cs =>
    rw [plusSep_eq, List.cons_append, List.cons_prefix_cons] at hp
    have hc : c ∈ t := List.IsSuffix.subset h2 (by simp)
    exact (hg c hc) (hp.1 ▸ (by decide : blank ∈ badChars))

/-- Inside one side of a composed label (and continuing into the arrow and
beyond) the arrow token can never match: a match would need a space
followed by a left angle, and sides of well-formed labels contain no left
angle. -/
theorem no_arrowSep_match_in_side (ts : List (List Char)) (tail : List Char)
    (hts : ∀ t ∈ ts, goodToken t) :
    ∀ t1, t1 ≠ [] → t1 <:+ joinSep plusSep ts →
      ¬ arrowSep <+: (t1 ++ (arrowSep ++ tail)) := by
  intro t1 h1 h2 hp
  cases t1 with
  | nil => exact h1 rfl
  | cons c t1cs =>
    rw [arrowSep_eq, List.cons_append, List.cons_prefix_cons] at hp
    cases t1cs with
    | nil =>
      have h3 := hp.2
      rw [List.nil_append, List.cons_append, List.cons_prefix_cons] at h3
      exact absurd h3.1 (by decide)
    | cons c2 t1cs2 =>
      have h3 := hp.2
      rw [List.cons_append, List.cons_prefix_cons] at h3
      have hc2 : c2 ∈ joinSep plusSep ts :=
        List.IsSuffix.subset h2 (by simp)
      exact ltChar_not_mem_joinSep ts hts (h3.1 ▸ hc2)

/-- On the product side of a composed label the arrow token can never
match either. -/
theorem no_arrowSep_match_in_last_side (ts : List (List Char))
    (hts : ∀ t ∈ ts, goodToken t) :
    ∀ t1, t1 ≠ [] → t1 <:+ joinSep plusSep ts → ¬ arrowSep <+: t1 := by
  intro t1 h1 h2 hp
  cases t1 with
  | nil => exact h1 rfl
  | cons c t1cs =>
    cases t1cs with
    | nil =>
      have := List.IsPrefix.length_le hp
      simp [arrowSep] at this
    | cons c2 t1cs2 =>
      rw [arrowSep_eq, List.cons_prefix_cons] at hp
      have h3 := hp.2
      rw [List.cons_prefix_cons] at h3
      have hc2 : c2 ∈ joinSep plusSep ts :=
        List.IsSuffix.subset h2 (by simp)
      exact ltChar_not_mem_joinSep ts hts (h3.1 ▸ hc2)

/-- Joining well-formed tokens with `' + '` and splitting again recovers
the tokens: the `parse ∘ compose` round-trip on one side of a label. -/
theorem splitOnL_joinSep (ts : List (List Char)) (hne : ts ≠ [])
    (hts : ∀ t ∈ ts, goodToken t) :
    splitOnL plusSep (joinSep plusSep ts) = ts := by
  induction ts with
  | nil => exact absurd rfl hne
  | cons t ts ih =>
    cases ts with
    | nil =>
      rw [joinSep_single]
      exact splitOnL_single plusSep t (fun t1 h1 h2 hp =>
        no_plusSep_match_in_token t [] (fun c hc => (hts t (by simp)).2 c hc)
          t1 h1 h2 (by simpa using hp))
    | cons t2 ts2 =>
      have hj : joinSep plusSep (t :: t2 :: ts2)
          = t ++ (plusSep ++ joinSep plusSep (t2 :: ts2)) := by
        rw [joinSep_cons_cons, List.append_assoc]
      rw [hj, splitOnL_append_of_no_match plusSep t _
          (no_plusSep_match_in_token t _ (fun c hc => (hts t (by simp)).2 c hc)),
        splitOnL_sep_append plusSep _ (by decide),
        ih (by simp) (fun u hu => hts u (by simp [hu]))]
      simp

/-! ### The multiplicity resolver: C1, C2 -/

/-- Outside the `[1,2,3]` row, the source's table agrees with the
spec's table on every key (including raising off-table). -/
theorem multiplicity_table_eq_spec_resolve (k p : List Nat) (h : k ≠ [1, 2, 3]) :
    multiplicity_table k p = spec_resolve k p := by
  by_cases h1 : k = [1, 1]
  · simp [multiplicity_table, spec_resolve, h1]
  by_cases h2 : k = [1, 2]
  · simp [multiplicity_table, spec_resolve, h1, h2]
  by_cases h3 : k = [2, 2]
  · simp [multiplicity_table, spec_resolve, h1, h2, h3]
  by_cases h4 : k = [1, 3]
  · simp [multiplicity_table, spec_resolve, h1, h2, h3, h4]
  by_cases h5 : k = [2, 3]
  · simp [multiplicity_table, spec_resolve, h1, h2, h3, h4, h5]
  by_cases h6 : k = [3, 3]
  · simp [multiplicity_table, spec_resolve, h1, h2, h3, h4, h5, h6]
  by_cases h7 : k = [1, 1, 1]
  · simp [multiplicity_table, spec_resolve, h1, h2, h3, h4, h5, h6, h7]
  by_cases h8 : k = [1, 1, 2]
  · simp [multiplicity_table, spec_resolve, h1, h2, h3, h4, h5, h6, h7, h8]
  by_cases h9 : k = [1, 1, 3]
  · simp [multiplicity_table, spec_resolve, h1, h2, h3, h4, h5, h6, h7, h8, h9]
  by_cases h10 : k = [1, 2, 2]
  · simp [multiplicity_table, spec_resolve, h1, h2, h3, h4, h5, h6, h7, h8, h9, h10]
  by_cases h11 : k = [2, 2, 2]
  · simp [multiplicity_table, spec_resolve, h1, h2, h3, h4, h5, h6, h7, h8, h9, h10, h11]
  simp [multiplicity_table, spec_resolve, h1, h2, h3, h4, h5, h6, h7, h8, h9, h10, h11, h]

/-- For reactant lists of length 2 or 3 (at least two resolved species on
each side), `determine_rxn_multiplicity` reduces to the table lookup on
the sorted keys. -/
theorem determine_rxn_multiplicity_eq_table (rm pm : List Nat)
    (hr : rm.length = 2 ∨ rm.length = 3) (hp : pm.length = 2 ∨ pm.length = 3) :
    determine_rxn_multiplicity none rm pm none
      = multiplicity_table (sortNats rm) (sortNats pm) := by
  match rm, hr with
  | [a, b], _ =>
    match pm, hp with
    | [x, y], _ => rfl
    | [x, y, z], _ => rfl
  | [a, b, c], _ =>
    match pm, hp with
    | [x, y], _ => rfl
    | [x, y, z], _ => rfl

/-- Claim C1: for every reaction with at least two resolved species on each
side (two or three, per the cardinality cap) and unset multiplicity,
`determine_rxn_multiplicity` returns exactly what the §4.3 table specifies
for the sorted reactant-multiplicity key (`spec_resolve`): the unambiguous
value for `[1,1]`, `[1,2]`, `[1,3]`, `[1,1,1]`, `[1,1,2]`, `[1,1,3]`; the
product-pattern-selected candidate for the ambiguous keys `[2,2]`, `[2,3]`,
`[3,3]`, `[1,2,2]`, `[2,2,2]`, with the listed default plus assumed-warning
when no listed product pattern matches; and a raise for any key not in the
table. (The `[1,2,3]` key is claim C2's subject and is excluded here.) -/
theorem c1_multiplicity_table_totality (rm pm : List Nat)
    (hr : rm.length = 2 ∨ rm.length = 3) (hp : pm.length = 2 ∨ pm.length = 3)
    (hk : sortNats rm ≠ [1, 2, 3]) :
    determine_rxn_multiplicity none rm pm none
      = spec_resolve (sortNats rm) (sortNats pm) := by
  rw [determine_rxn_multiplicity_eq_table rm pm hr hp]
  exact multiplicity_table_eq_spec_resolve _ _ hk

/-- Witness for C1 at the claim's own example `resolve([2,2], products=[9,9])`:
the hypotheses hold and the resolver agrees with the spec table (both give
the default singlet with an assumed-warning). -/
theorem c1_multiplicity_table_totality_witness :
    determine_rxn_multiplicity none [2, 2] [9, 9] none
      = spec_resolve (sortNats [2, 2]) (sortNats [9, 9]) :=
  c1_multiplicity_table_totality [2, 2] [9, 9] (Or.inl rfl) (Or.inl rfl) (by decide)

/-- Claim C2 (code bug): for sorted reactant multiplicities `[1,2,3]` the
source computes the product-pattern-disambiguated candidate but then
unconditionally overwrites it with the default doublet and the
assumed-warning (reaction.py lines 409-416).  At product pattern `[1,4]`
the code therefore sets 2 with a warning, while the claim/spec say 4 with
no warning (`spec_resolve`); and even at the matching pattern `[1,1,2]`
the code warns where the claim says it should not. -/
theorem c2_mult_123_dead_disambiguation :
    determine_rxn_multiplicity none [1, 2, 3] [1, 4] none = .set 2 true
      ∧ spec_resolve [1, 2, 3] [1, 4] = .set 4 false
      ∧ determine_rxn_multiplicity none [1, 2, 3] [1, 1, 2] none = .set 2 true
      ∧ spec_resolve [1, 2, 3] [1, 1, 2] = .set 2 false := by
  refine ⟨rfl, by decide, rfl, by decide⟩

/-! ### C9: a set multiplicity is immutable -/

/-- Claim C9: on a record whose multiplicity is already set,
`determine_rxn_multiplicity` returns the record entirely unchanged (the
whole method body is guarded by `if self.multiplicity is None`,
line 309): a set multiplicity is never overwritten and no other field is
touched. -/
theorem c9_set_multiplicity_immutable (r : RxnObj) (m : Nat)
    (h : r.multiplicity = some m) :
    determine_rxn_multiplicity_obj r = .ok r := by
  simp [determine_rxn_multiplicity_obj, determine_rxn_multiplicity, h]

/-- Witness for C9: the sample record has multiplicity 2 set, and the
resolver hands it back untouched. -/
theorem c9_set_multiplicity_immutable_witness :
    determine_rxn_multiplicity_obj demoRxn = .ok demoRxn :=
  c9_set_multiplicity_immutable demoRxn 2 rfl

/-! ### Splitting composed labels -/

theorem composeLabel_ne_nil (rl pl : List (List Char)) :
    composeLabel rl pl ≠ [] := by
  intro h
  have := congrArg List.length h
  simp [composeLabel, arrowSep] at this

/-- Splitting a composed label on the spaced arrow recovers the two
sides. -/
theorem splitOnL_arrowSep_composeLabel (rl pl : List (List Char))
    (hr : ∀ t ∈ rl, goodToken t) (hp : ∀ t ∈ pl, goodToken t) :
    splitOnL arrowSep (composeLabel rl pl)
      = [joinSep plusSep rl, joinSep plusSep pl] := by
  rw [composeLabel, List.append_assoc,
    splitOnL_append_of_no_match arrowSep _ _ (no_arrowSep_match_in_side rl _ hr),
    splitOnL_sep_append arrowSep _ (by decide),
    splitOnL_single arrowSep _ (no_arrowSep_match_in_last_side pl hp)]
  simp

/-! ### `set_label_reactants_products` outcome characterizations -/

/-- With empty species lists, `rmg_reaction_from_arc_species` does
nothing. -/
theorem rmg_from_arc_of_no_species (r : RxnObj) (h : r.r_species = []) :
    rmg_reaction_from_arc_species r = r := by
  simp [rmg_reaction_from_arc_species, h]

/-- `arc_species_from_rmg_reaction` never touches the label or the
reactant/product label lists. -/
theorem populateSpecies_preserves (r : RxnObj) :
    (populateSpecies r).label = r.label
      ∧ (populateSpecies r).reactants = r.reactants
      ∧ (populateSpecies r).products = r.products := by
  unfold populateSpecies arc_species_from_rmg_reaction
  cases r.rmg_reaction
  · simp
  · simp
    split <;> simp

/-- `set_label_reactants_products` on a record with both label and both
lists present: everything kept, only the RMG reaction possibly
synthesized. -/
theorem set_label_obj_of_full (r : RxnObj) (rl pl : List (List Char))
    (h1 : r.reactants = some rl) (h2 : r.products = some pl)
    (h3 : r.label ≠ []) :
    set_label_obj r = if r.rmg_reaction = none
      then .ok (rmg_reaction_from_arc_species r) else .ok r := by
  unfold set_label_obj
  simp [h1, h2, h3]

/-- `set_label_reactants_products` on a record with both lists but no
label: the label is composed from the lists. -/
theorem set_label_obj_of_lists (r : RxnObj) (rl pl : List (List Char))
    (h1 : r.reactants = some rl) (h2 : r.products = some pl)
    (h3 : r.label = []) :
    set_label_obj r = if r.rmg_reaction = none
      then .ok (rmg_reaction_from_arc_species { r with label := composeLabel rl pl })
      else .ok { r with label := composeLabel rl pl } := by
  unfold set_label_obj
  simp [h1, h2, h3, composeLabel_ne_nil]

/-- `set_label_reactants_products` on a record with a label whose
arrow-split has exactly two parts and at least one missing list: both
lists are (re)derived from the label. -/
theorem set_label_obj_of_parse (r : RxnObj) (a b : List Char)
    (h1 : r.reactants = none ∨ r.products = none) (h3 : r.label ≠ [])
    (hsplit : splitOnL arrowSep r.label = [a, b]) :
    set_label_obj r =
      (if r.rmg_reaction = none
        then .ok (rmg_reaction_from_arc_species { r with
          reactants := some (if plusSep <:+: a then splitOnL plusSep a else [a]),
          products := some (if plusSep <:+: b then splitOnL plusSep b else [b]) })
        else .ok { r with
          reactants := some (if plusSep <:+: a then splitOnL plusSep a else [a]),
          products := some (if plusSep <:+: b then splitOnL plusSep b else [b]) }) := by
  have hinf : arrowSep <:+: r.label :=
    infixOf_of_splitOnL _ _ (by rw [hsplit]; simp)
  unfold set_label_obj
  rcases h1 with h1 | h1 <;> simp [h1, h3, hinf, hsplit]

/-- `set_label_reactants_products` on a record built from an external RMG
stub only: both lists come from the stub's labels, the label is composed
from them. -/
theorem set_label_obj_of_rmg (r : RxnObj) (g : RMGReaction)
    (h1 : r.reactants = none ∨ r.products = none) (h3 : r.label = [])
    (hg : r.rmg_reaction = some g) :
    set_label_obj r = .ok { r with
      reactants := some (g.reactants.map (·.label)),
      products := some (g.products.map (·.label)),
      label := composeLabel (g.reactants.map (·.label)) (g.products.map (·.label)) } := by
  unfold set_label_obj
  rcases h1 with h1 | h1 <;>
    simp [h1, h3, hg, composeLabel_ne_nil]

/-! ### C4: the label and the lists -/

/-- A record whose label was composed from its own (well-formed,
non-empty) lists satisfies the consistency check. -/
theorem labelConsistent_composed (r : RxnObj) (rl pl : List (List Char))
    (hl : r.label = composeLabel rl pl) (h1 : r.reactants = some rl)
    (h2 : r.products = some pl) (hner : rl ≠ []) (hnep : pl ≠ [])
    (hgr : ∀ t ∈ rl, goodToken t) (hgp : ∀ t ∈ pl, goodToken t) :
    labelConsistent r = true := by
  unfold labelConsistent
  rw [hl, h1, h2, splitOnL_arrowSep_composeLabel rl pl hgr hgp]
  simp [splitOnL_joinSep rl hner hgr, splitOnL_joinSep pl hnep hgp]

/-- A record whose lists were derived from its own label satisfies the
consistency check. -/
theorem labelConsistent_parsed (r : RxnObj) (a b : List Char)
    (hsplit : splitOnL arrowSep r.label = [a, b])
    (h1 : r.reactants = some (if plusSep <:+: a then splitOnL plusSep a else [a]))
    (h2 : r.products = some (if plusSep <:+: b then splitOnL plusSep b else [b])) :
    labelConsistent r = true := by
  unfold labelConsistent
  rw [hsplit, h1, h2]
  by_cases ha : plusSep <:+: a <;> by_cases hb : plusSep <:+: b <;>
    simp [ha, hb, splitOnL_single_of_no_infixOf]

/-- When the arrow-split of the label does not have exactly two parts (and
a list is missing so that parsing is attempted), `set_label_reactants_products`
raises (`ReactionError` for a missing arrow, `ValueError` for a bad
unpack). -/
theorem set_label_obj_parse_err (r : RxnObj)
    (h1 : r.reactants = none ∨ r.products = none) (h3 : r.label ≠ [])
    (hshape : ∀ a b, splitOnL arrowSep r.label ≠ [a, b]) :
    ∃ e, set_label_obj r = .error e := by
  unfold set_label_obj
  by_cases hinf : arrowSep <:+: r.label
  · rcases hs : splitOnL arrowSep r.label with _ | ⟨a, _ | ⟨b, _ | ⟨c, l⟩⟩⟩
    · exact absurd hs (splitOnL_ne_nil _ _)
    · rcases h1 with h1 | h1 <;> exact ⟨.valueError, by simp [h1, h3, hinf, hs]⟩
    · exact absurd hs (hshape a b)
    · rcases h1 with h1 | h1 <;> exact ⟨.valueError, by simp [h1, h3, hinf, hs]⟩
  · rcases h1 with h1 | h1 <;> exact ⟨.reactionError, by simp [h1, h3, hinf]⟩

/-- Inversion of a successful construction: the record is the
species-populated result of `set_label_reactants_products` on the fresh
state, and both lists are present with at most three entries. -/
theorem mkReaction_ok_inv (label : List Char)
    (reactants products : Option (List (List Char))) (tsl : Option (List Char))
    (rmg : Option RMGReaction) (tsm : Option (List (List Char)))
    (guesses : List (List Elem)) (mult : Option Nat) (charge : Int) (r : RxnObj)
    (hmk : mkReaction label reactants products tsl rmg tsm guesses mult charge
      = .ok r) :
    ∃ st, set_label_obj (mkBase label reactants products tsl rmg tsm guesses
        mult charge) = .ok st ∧ r = populateSpecies st
      ∧ ∃ rl pl, st.reactants = some rl ∧ st.products = some pl
        ∧ rl.length ≤ 3 ∧ pl.length ≤ 3 := by
  unfold mkReaction at hmk
  split at hmk
  · exact absurd hmk (by simp)
  · cases hset : set_label_obj (mkBase label reactants products tsl rmg tsm
        guesses mult charge) with
    | error e => rw [hset] at hmk; exact absurd hmk (by simp)
    | ok st =>
      rw [hset] at hmk
      dsimp only at hmk
      refine ⟨st, rfl, ?_⟩
      cases hrl : st.reactants with
      | none => simp [hrl] at hmk
      | some rl =>
        cases hpl : st.products with
        | none => simp [hrl, hpl] at hmk
        | some pl =>
          rw [hrl, hpl] at hmk
          dsimp only at hmk
          split at hmk
          · exact absurd hmk (by simp)
          · cases hbal : check_atom_balance_with st none true with
            | error e => rw [hbal] at hmk; exact absurd hmk (by simp)
            | ok bb =>
              rw [hbal] at hmk
              simp only [Except.ok.injEq] at hmk
              subst hmk
              refine ⟨rfl, rl, pl, rfl, rfl, by omega, by omega⟩

unseal splitOnL countSubL in
/-- Claim C4 counterexample: supplying an inconsistent label *and* both
explicit lists constructs successfully, and the resulting record's label
`X <=> Y` does not split back to its lists `['A']`/`['B']` — the label
and the lists do diverge. -/
theorem c4_label_lists_divergence_cex :
    (mkReaction "X <=> Y".data (some ["A".data]) (some ["B".data]) none none
        none [] none 0).map labelConsistent = .ok false := by
  rfl

/-- Claim C4 (amended): for every successfully constructed record, the
label splits back to exactly the reactants and products lists, provided
the label and the two explicit lists are not *both* supplied (when both
are supplied the constructor keeps them without cross-checking, and an
inconsistent pair diverges — see the counterexample) and the supplied
lists/stub carry non-empty delimiter-free species labels on non-empty
sides. -/
theorem c4_label_lists_consistency_amended (label : List Char)
    (reactants products : Option (List (List Char))) (tsl : Option (List Char))
    (rmg : Option RMGReaction) (tsm : Option (List (List Char)))
    (guesses : List (List Elem)) (mult : Option Nat) (charge : Int) (r : RxnObj)
    (hsupply : label = [] ∨ reactants = none ∨ products = none)
    (hgr : ∀ l, reactants = some l → l ≠ [] ∧ ∀ t ∈ l, goodToken t)
    (hgp : ∀ l, products = some l → l ≠ [] ∧ ∀ t ∈ l, goodToken t)
    (hgm : ∀ g, rmg = some g → g.reactants ≠ [] ∧ g.products ≠ []
      ∧ ∀ s ∈ g.reactants ++ g.products, goodToken s.label)
    (hmk : mkReaction label reactants products tsl rmg tsm guesses mult charge
      = .ok r) :
    labelConsistent r = true := by
  obtain ⟨st, hset, hr, rl0, pl0, hrl0, hpl0, _, _⟩ :=
    mkReaction_ok_inv label reactants products tsl rmg tsm guesses mult charge
      r hmk
  have hpres := populateSpecies_preserves st
  by_cases hboth : (∃ rl, reactants = some rl) ∧ (∃ pl, products = some pl)
  · -- both lists supplied: the label must have been empty
    obtain ⟨⟨rl, hrleq⟩, ⟨pl, hpleq⟩⟩ := hboth
    have hlab : label = [] := by
      rcases hsupply with h | h | h
      · exact h
      · rw [hrleq] at h; cases h
      · rw [hpleq] at h; cases h
    rw [set_label_obj_of_lists _ rl pl (by simp [mkBase, hrleq])
      (by simp [mkBase, hpleq]) (by simp [mkBase, hlab])] at hset
    have hstval : st = { mkBase label reactants products tsl rmg tsm guesses
        mult charge with label := composeLabel rl pl } := by
      by_cases hrmg : (mkBase label reactants products tsl rmg tsm guesses mult
          charge).rmg_reaction = none
      · rw [if_pos hrmg, rmg_from_arc_of_no_species _ (by simp [mkBase])] at hset
        exact (Except.ok.injEq _ _).mp hset.symm
      · rw [if_neg hrmg] at hset
        exact (Except.ok.injEq _ _).mp hset.symm
    subst hr
    exact labelConsistent_composed _ rl pl
      (by rw [hpres.1, hstval])
      (by rw [hpres.2.1, hstval]; simp [mkBase, hrleq])
      (by rw [hpres.2.2, hstval]; simp [mkBase, hpleq])
      (hgr rl hrleq).1 (hgp pl hpleq).1 (hgr rl hrleq).2 (hgp pl hpleq).2
  · -- a list is missing: the lists come from the label or the stub
    have hmiss : reactants = none ∨ products = none := by
      by_cases h1 : reactants = none
      · exact Or.inl h1
      · by_cases h2 : products = none
        · exact Or.inr h2
        · exfalso
          apply hboth
          cases hx : reactants with
          | none => exact absurd hx h1
          | some l =>
            cases hy : products with
            | none => exact absurd hy h2
            | some l2 => exact ⟨⟨l, rfl⟩, ⟨l2, rfl⟩⟩
    by_cases hlab : label = []
    · -- label empty too: everything comes from the RMG stub
      have hrmg : ∃ g, rmg = some g := by
        cases hg : rmg with
        | none =>
          exfalso
          rw [mkReaction, if_pos ⟨hg, hmiss, hlab⟩] at hmk
          exact absurd hmk (by simp)
        | some g => exact ⟨g, rfl⟩
      obtain ⟨g, hg⟩ := hrmg
      rw [set_label_obj_of_rmg _ g (by simpa [mkBase] using hmiss)
        (by simp [mkBase, hlab]) (by simp [mkBase, hg])] at hset
      have hstval := (Except.ok.injEq _ _).mp hset.symm
      subst hr
      have hglab := hgm g hg
      refine labelConsistent_composed _ (g.reactants.map (·.label))
        (g.products.map (·.label)) ?_ ?_ ?_ ?_ ?_ ?_ ?_
      · rw [hpres.1, hstval]
      · rw [hpres.2.1, hstval]
      · rw [hpres.2.2, hstval]
      · simpa using hglab.1
      · simpa using hglab.2.1
      · intro t ht
        obtain ⟨s, hs, rfl⟩ := List.mem_map.mp ht
        exact hglab.2.2 s (by simp [hs])
      · intro t ht
        obtain ⟨s, hs, rfl⟩ := List.mem_map.mp ht
        exact hglab.2.2 s (by simp [hs])
    · -- non-empty label: both lists are (re)parsed from it
      rcases hsq : splitOnL arrowSep label with _ | ⟨a, _ | ⟨b, _ | ⟨c, l⟩⟩⟩
      · exact absurd hsq (splitOnL_ne_nil _ _)
      · obtain ⟨e, he⟩ := set_label_obj_parse_err
          (mkBase label reactants products tsl rmg tsm guesses mult charge)
          (by simpa [mkBase] using hmiss) (by simpa [mkBase] using hlab)
          (by simp [mkBase]; rw [hsq]; intro a1 b1; simp)
        rw [he] at hset
        exact absurd hset (by simp)
      · rw [set_label_obj_of_parse _ a b (by simpa [mkBase] using hmiss)
          (by simpa [mkBase] using hlab) (by simpa [mkBase] using hsq)] at hset
        have hstval : st = { mkBase label reactants products tsl rmg tsm guesses
            mult charge with
            reactants := some (if plusSep <:+: a then splitOnL plusSep a else [a]),
            products := some (if plusSep <:+: b then splitOnL plusSep b else [b]) } := by
          by_cases hrmg : (mkBase label reactants products tsl rmg tsm guesses
              mult charge).rmg_reaction = none
          · rw [if_pos hrmg, rmg_from_arc_of_no_species _ (by simp [mkBase])] at hset
            exact (Except.ok.injEq _ _).mp hset.symm
          · rw [if_neg hrmg] at hset
            exact (Except.ok.injEq _ _).mp hset.symm
        subst hr
        refine labelConsistent_parsed _ a b ?_ ?_ ?_
        · rw [hpres.1, hstval]
          simpa [mkBase] using hsq
        · rw [hpres.2.1, hstval]
        · rw [hpres.2.2, hstval]
      · obtain ⟨e, he⟩ := set_label_obj_parse_err
          (mkBase label reactants products tsl rmg tsm guesses mult charge)
          (by simpa [mkBase] using hmiss) (by simpa [mkBase] using hlab)
          (by simp [mkBase]; rw [hsq]; intro a1 b1; simp)
        rw [he] at hset
        exact absurd hset (by simp)

unseal splitOnL countSubL in
/-- Witness for the amended C4 at a concrete lists-only construction:
`mkReaction` from lists `['HO2']` and `['O2', 'H']` succeeds and the
resulting record passes the label/lists consistency check. -/
theorem c4_label_lists_consistency_amended_witness :
    ∃ r, mkReaction [] (some ["HO2".data]) (some ["O2".data, "H".data]) none none
        none [] none 0 = .ok r ∧ labelConsistent r = true := by
  cases hmk : mkReaction [] (some ["HO2".data]) (some ["O2".data, "H".data]) none
      none none [] none 0 with
  | error e =>
    have hval : (mkReaction [] (some ["HO2".data]) (some ["O2".data, "H".data])
        none none none [] none 0).map labelConsistent = .ok true := by rfl
    rw [hmk] at hval
    exact absurd hval (by simp [Except.map])
  | ok r =>
    refine ⟨r, rfl, ?_⟩
    exact c4_label_lists_consistency_amended [] (some ["HO2".data])
      (some ["O2".data, "H".data]) none none none [] none 0 r (Or.inl rfl)
      (by intro l hl; injection hl with h; subst h; exact ⟨by simp, by decide⟩)
      (by intro l hl; injection hl with h; subst h; exact ⟨by simp, by decide⟩)
      (by intro g hg; cases hg) hmk

/-! ### C5: the cardinality bound -/

unseal splitOnL countSubL in
/-- Claim C5 counterexample: a 4-element reactants list together with a
label and no products list does *not* fail — `set_label_reactants_products`
re-derives both lists from the label, silently discarding the 4-element
list, and construction succeeds with reactants `['X']`. -/
theorem c5_cardinality_cex :
    (mkReaction "X <=> Y".data
        (some ["A".data, "B".data, "C".data, "D".data]) none none none none
        [] none 0).map (fun r => r.reactants)
      = .ok (some ["X".data]) := by
  rfl

/-- Claim C5 (amended): construction with 4 or more reactants or products
fails with a construction error whenever (i) both lists are supplied
explicitly, or (ii) the lists are derived from a label whose reactant or
product segment holds 4 or more tokens; and (iii) construction with no
label, no lists and no RMG stub fails with `InputError`.  (When exactly
one oversized list is supplied together with a label, the list is
silently replaced from the label and construction can succeed — see the
counterexample.) -/
theorem c5_cardinality_amended :
    (∀ label rl pl tsl rmg tsm guesses mult charge,
      4 ≤ rl.length ∨ 4 ≤ pl.length →
      mkReaction label (some rl) (some pl) tsl rmg tsm guesses mult charge
        = .error .reactionError)
    ∧ (∀ label a b tsl rmg tsm guesses mult charge,
      splitOnL arrowSep label = [a, b] →
      4 ≤ (splitOnL plusSep a).length ∨ 4 ≤ (splitOnL plusSep b).length →
      mkReaction label none none tsl rmg tsm guesses mult charge
        = .error .reactionError)
    ∧ (∀ tsl tsm guesses mult charge,
      mkReaction [] none none tsl none tsm guesses mult charge
        = .error .inputError) := by
  refine ⟨?_, ?_, ?_⟩
  · intro label rl pl tsl rmg tsm guesses mult charge hlen
    have h34 : 3 < rl.length ∨ 3 < pl.length := by
      rcases hlen with h | h
      · exact Or.inl (by omega)
      · exact Or.inr (by omega)
    rw [mkReaction, if_neg (by simp)]
    by_cases hlab : label = []
    · rw [set_label_obj_of_lists _ rl pl (by simp [mkBase]) (by simp [mkBase])
        (by simp [mkBase, hlab])]
      by_cases hrmg : (mkBase label (some rl) (some pl) tsl rmg tsm guesses mult
          charge).rmg_reaction = none
      · rw [if_pos hrmg, rmg_from_arc_of_no_species _ (by simp [mkBase])]
        simp only [mkBase]
        rw [if_pos h34]
      · rw [if_neg hrmg]
        simp only [mkBase]
        rw [if_pos h34]
    · rw [set_label_obj_of_full _ rl pl (by simp [mkBase]) (by simp [mkBase])
        (by simp [mkBase, hlab])]
      by_cases hrmg : (mkBase label (some rl) (some pl) tsl rmg tsm guesses mult
          charge).rmg_reaction = none
      · rw [if_pos hrmg, rmg_from_arc_of_no_species _ (by simp [mkBase])]
        simp only [mkBase]
        rw [if_pos h34]
      · rw [if_neg hrmg]
        simp only [mkBase]
        rw [if_pos h34]
  · intro label a b tsl rmg tsm guesses mult charge hsplit hlen
    have hlabne : label ≠ [] := by
      intro h
      subst h
      simp [splitOnL] at hsplit
    rw [mkReaction, if_neg (by simp [hlabne])]
    rw [set_label_obj_of_parse _ a b (Or.inl rfl) (by simpa [mkBase] using hlabne)
      (by simpa [mkBase] using hsplit)]
    have h34 : 3 < (if plusSep <:+: a then splitOnL plusSep a else [a]).length
        ∨ 3 < (if plusSep <:+: b then splitOnL plusSep b else [b]).length := by
      rcases hlen with h | h
      · have hinf : plusSep <:+: a := infixOf_of_splitOnL _ _ (by omega)
        rw [if_pos hinf]
        exact Or.inl (by omega)
      · have hinf : plusSep <:+: b := infixOf_of_splitOnL _ _ (by omega)
        rw [if_pos hinf]
        exact Or.inr (by omega)
    by_cases hrmg : (mkBase label none none tsl rmg tsm guesses mult
        charge).rmg_reaction = none
    · rw [if_pos hrmg, rmg_from_arc_of_no_species _ (by simp [mkBase])]
      simp only [mkBase]
      rw [if_pos h34]
    · rw [if_neg hrmg]
      simp only [mkBase]
      rw [if_pos h34]
  · intro tsl tsm guesses mult charge
    rfl

unseal splitOnL countSubL in
/-- Witness for the amended C5 at concrete inputs: an explicit 4-reactant
list fails, a label with four reactant tokens fails, and the empty
construction fails. -/
theorem c5_cardinality_amended_witness :
    mkReaction [] (some ["A".data, "B".data, "C".data, "D".data])
        (some ["E".data]) none none none [] none 0 = .error .reactionError
      ∧ mkReaction "A + B + C + D <=> E".data none none none none none [] none 0
        = .error .reactionError
      ∧ mkReaction [] none none none none none [] none 0 = .error .inputError := by
  refine ⟨?_, ?_, ?_⟩
  · exact c5_cardinality_amended.1 [] ["A".data, "B".data, "C".data, "D".data]
      ["E".data] none none none [] none 0 (Or.inl (by decide))
  · exact c5_cardinality_amended.2.1 "A + B + C + D <=> E".data
      "A + B + C + D".data "E".data none none none [] none 0 (by rfl)
      (Or.inl (by decide))
  · exact c5_cardinality_amended.2.2 none none [] none 0

/-! ### C7: the stoichiometric count -/

theorem goodToken_ne_nil (h : goodToken t) : t ≠ [] := h.1

theorem goodToken_no_blank (h : goodToken t) : blank ∉ t :=
  fun hm => (h.2 blank hm) (by decide)

theorem goodToken_no_plus (h : goodToken t) : plusChar ∉ t :=
  fun hm => (h.2 plusChar hm) (by decide)

/-- In front of the rest of the label the bare arrow cannot match inside
`side ++ ' '`: its first character is a left angle. -/
theorem no_arrowBare_match (ts : List (List Char)) (rest : List Char)
    (hts : ∀ t ∈ ts, goodToken t) :
    ∀ t1, t1 ≠ [] → t1 <:+ (joinSep plusSep ts ++ [blank]) →
      ¬ arrowBare <+: (t1 ++ rest) := by
  intro t1 h1 h2 hpre
  cases t1 with
  | nil => exact h1 rfl
  | cons c t1cs =>
    rw [arrowBare_eq, List.cons_append, List.cons_prefix_cons] at hpre
    have hc : c ∈ joinSep plusSep ts ++ [blank] :=
      List.IsSuffix.subset h2 (by simp)
    rcases List.mem_append.mp hc with hA | hbl
    · exact ltChar_not_mem_joinSep ts hts (hpre.1 ▸ hA)
    · simp at hbl
      exact absurd (hpre.1.trans hbl) (by decide)

/-- The bare arrow cannot match inside `' ' ++ side` either. -/
theorem no_arrowBare_match_last (ts : List (List Char))
    (hts : ∀ t ∈ ts, goodToken t) :
    ∀ t1, t1 ≠ [] → t1 <:+ ([blank] ++ joinSep plusSep ts) →
      ¬ arrowBare <+: t1 := by
  intro t1 h1 h2 hpre
  cases t1 with
  | nil => exact h1 rfl
  | cons c t1cs =>
    rw [arrowBare_eq, List.cons_prefix_cons] at hpre
    have hc : c ∈ [blank] ++ joinSep plusSep ts :=
      List.IsSuffix.subset h2 (by simp)
    rcases List.mem_append.mp hc with hbl | hA
    · simp at hbl
      exact absurd (hpre.1.trans hbl) (by decide)
    · exact ltChar_not_mem_joinSep ts hts (hpre.1 ▸ hA)

/-- Splitting a composed label on the bare `'<=>'` yields the reactant
segment with its trailing space and the product segment with its leading
space — exactly the `well_str` values `get_species_count` works on. -/
theorem splitOnL_arrowBare_composeLabel (rl pl : List (List Char))
    (hr : ∀ t ∈ rl, goodToken t) (hp : ∀ t ∈ pl, goodToken t) :
    splitOnL arrowBare (composeLabel rl pl)
      = [joinSep plusSep rl ++ [blank], [blank] ++ joinSep plusSep pl] := by
  have hshape : composeLabel rl pl
      = (joinSep plusSep rl ++ [blank])
        ++ (arrowBare ++ ([blank] ++ joinSep plusSep pl)) := by
    rw [composeLabel, arrowSep_decomp]
    simp
  rw [hshape,
    splitOnL_append_of_no_match arrowBare _ _ (no_arrowBare_match rl _ hr),
    splitOnL_sep_append arrowBare _ (by decide),
    splitOnL_single arrowBare _ (no_arrowBare_match_last pl hp)]
  simp

/-- Structure of the suffixes of `t ++ [x]`. -/
theorem suffix_append_singleton (t1 t : List Char) (x : Char)
    (h : t1 <:+ t ++ [x]) : t1 = [] ∨ ∃ t2, t2 <:+ t ∧ t1 = t2 ++ [x] := by
  rw [← List.reverse_prefix] at h
  rw [List.reverse_append] at h
  simp only [List.reverse_cons, List.reverse_nil, List.nil_append] at h
  cases hrev : t1.reverse with
  | nil =>
    left
    have := congrArg List.reverse hrev
    simpa using this
  | cons c u =>
    right
    rw [hrev, List.singleton_append, List.cons_prefix_cons] at h
    refine ⟨u.reverse, ?_, ?_⟩
    · rw [← List.reverse_prefix]
      simpa using h.2
    · have := congrArg List.reverse hrev
      simp at this
      rw [this, h.1]

/-- The marked pattern `' ' ++ s ++ ' '` never matches inside a
well-formed token region followed by a trailing space. -/
theorem pat_no_match_in_token_tail (s t : List Char) (hs : goodToken s)
    (ht : ∀ c ∈ t, c ∉ badChars) :
    ∀ t1, t1 ≠ [] → t1 <:+ t ++ [blank] →
      ¬ ([blank] ++ s ++ [blank]) <+: t1 := by
  intro t1 h1 h2 hpre
  rcases suffix_append_singleton t1 t blank h2 with rfl | ⟨t2, ht2, rfl⟩
  · exact h1 rfl
  · cases t2 with
    | nil =>
      have hlen := List.IsPrefix.length_le hpre
      have hslen : 1 ≤ s.length := by
        cases hsn : s with
        | nil => exact absurd hsn hs.1
        | cons a l => simp
      simp only [List.length_append, List.length_cons, List.length_nil,
        List.singleton_append] at hlen
      omega
    | cons c2 t2cs =>
      simp only [List.singleton_append, List.cons_append, List.nil_append] at hpre
      rw [List.cons_prefix_cons] at hpre
      have hc2 : c2 ∈ t := List.IsSuffix.subset ht2 (by simp)
      exact (ht c2 hc2) (hpre.1 ▸ (by decide : blank ∈ badChars))

/-- The marked pattern cannot match at the space before a plus. -/
theorem pat_no_match_at_blank_plus (s X : List Char) (hs : goodToken s) :
    ¬ ([blank] ++ s ++ [blank]) <+: (blank :: plusChar :: X) := by
  intro h
  simp only [List.singleton_append, List.cons_append] at h
  rw [List.cons_prefix_cons] at h
  cases hsn : s with
  | nil => exact hs.1 hsn
  | cons c s2 =>
    have h2 := h.2
    simp only [List.nil_append] at h2
    rw [hsn, List.cons_append, List.cons_prefix_cons] at h2
    exact goodToken_no_plus hs (by rw [hsn, ← h2.1]; simp)

/-- The marked pattern cannot match at a plus. -/
theorem pat_no_match_at_plus (s X : List Char) :
    ¬ ([blank] ++ s ++ [blank]) <+: (plusChar :: X) := by
  intro h
  simp only [List.singleton_append, List.cons_append] at h
  rw [List.cons_prefix_cons] at h
  exact absurd h.1 (by decide)

/-- The marked pattern cannot match anywhere in a region whose characters
all come from a well-formed token. -/
theorem pat_no_match_in_token (s t rest : List Char)
    (ht : ∀ c ∈ t, c ∉ badChars) :
    ∀ t1, t1 ≠ [] → t1 <:+ t → ¬ ([blank] ++ s ++ [blank]) <+: (t1 ++ rest) := by
  intro t1 h1 h2 hp
  cases t1 with
  | nil => exact h1 rfl
  | cons c t1cs =>
    simp only [List.singleton_append, List.cons_append] at hp
    rw [List.cons_prefix_cons] at hp
    have hc : c ∈ t := List.IsSuffix.subset h2 (by simp)
    exact (ht c hc) (hp.1 ▸ (by decide : blank ∈ badChars))

/-- The core inner-count lemma: in `' ' ++ side ++ ' '`, the marked
pattern `' ' ++ s ++ ' '` matches once per token equal to `s`. -/
theorem countSubL_pat_marked (s : List Char) (hs : goodToken s) :
    ∀ ts : List (List Char), (∀ t ∈ ts, goodToken t) →
      countSubL ([blank] ++ s ++ [blank])
        ([blank] ++ joinSep plusSep ts ++ [blank]) = ts.count s := by
  have hsl : 1 ≤ s.length := by
    cases hsn : s with
    | nil => exact absurd hsn hs.1
    | cons a l => simp
  intro ts
  induction ts with
  | nil =>
    intro _
    rw [joinSep]
    apply countSubL_eq_zero
    intro t1 h1 h2 hp
    have hl1 := List.IsPrefix.length_le hp
    have hl2 := List.IsSuffix.length_le h2
    simp only [List.length_append, List.length_cons, List.length_nil,
      List.singleton_append, List.nil_append] at hl1 hl2
    omega
  | cons t ts2 ih =>
    intro hts
    have hgt := hts t (by simp)
    cases ts2 with
    | nil =>
      rw [joinSep_single]
      by_cases hst : s = t
      · subst hst
        have h1 : countSubL ([blank] ++ s ++ [blank]) ([blank] ++ s ++ [blank])
            = 1 := by
          have := countSubL_self_append ([blank] ++ s ++ [blank]) [] (by simp)
          rw [List.append_nil] at this
          rw [this, countSubL_nil]
        rw [h1, List.count_cons]
        simp
      · have hnm : ¬ ([blank] ++ s ++ [blank]) <+: ([blank] ++ t ++ [blank]) := by
          intro hp
          simp only [List.singleton_append, List.cons_append] at hp
          rw [List.cons_prefix_cons] at hp
          have h2 := hp.2
          simp only [List.nil_append] at h2
          rw [show (t ++ [blank] : List Char) = t ++ ([blank] ++ []) by simp] at h2
          exact hst ((marker_isPre_iff blank s t [] (goodToken_no_blank hs)
            (goodToken_no_blank hgt)).mp h2)
        rw [show ([blank] ++ t ++ [blank] : List Char)
            = blank :: (t ++ [blank]) by simp]
        rw [countSubL_of_no_match _ _ _ (by
          simpa [List.cons_append] using hnm)]
        rw [countSubL_eq_zero _ _ (pat_no_match_in_token_tail s t hs
          (fun c hc => hgt.2 c hc))]
        rw [List.count_cons]
        simp [Ne.symm hst, hst]
    | cons t2 ts3 =>
      rw [joinSep_cons_cons]
      have hVshape : ([blank] ++ (t ++ plusSep ++ joinSep plusSep (t2 :: ts3))
            ++ [blank] : List Char)
          = blank :: (t ++ ([blank] ++ (plusChar
              :: ([blank] ++ joinSep plusSep (t2 :: ts3) ++ [blank])))) := by
        rw [plusSep_eq]
        simp
      by_cases hst : s = t
      · subst hst
        have hshape2 : (blank :: (s ++ ([blank] ++ (plusChar
              :: ([blank] ++ joinSep plusSep (t2 :: ts3) ++ [blank])))) : List Char)
            = ([blank] ++ s ++ [blank]) ++ (plusChar
              :: ([blank] ++ joinSep plusSep (t2 :: ts3) ++ [blank])) := by
          simp
        rw [hVshape, hshape2, countSubL_self_append _ _ (by simp),
          countSubL_of_no_match _ _ _ (pat_no_match_at_plus s _),
          ih (fun u hu => hts u (by simp [hu]))]
        have hc : List.count s (s :: t2 :: ts3) = List.count s (t2 :: ts3) + 1 := by
          rw [List.count_cons]
          simp
        rw [hc]
        omega
      · have hnm : ¬ ([blank] ++ s ++ [blank]) <+: (blank :: (t ++ ([blank]
            ++ (plusChar :: ([blank] ++ joinSep plusSep (t2 :: ts3)
              ++ [blank]))))) := by
          intro hp
          simp only [List.singleton_append, List.cons_append] at hp
          rw [List.cons_prefix_cons] at hp
          exact hst ((marker_isPre_iff blank s t _ (goodToken_no_blank hs)
            (goodToken_no_blank hgt)).mp (by simpa using hp.2))
        rw [hVshape, countSubL_of_no_match _ _ _ hnm,
          countSubL_append_of_no_match _ _ _
            (pat_no_match_in_token s t _ (fun c hc => hgt.2 c hc)),
          show ([blank] ++ (plusChar :: ([blank] ++ joinSep plusSep (t2 :: ts3)
              ++ [blank])) : List Char)
            = blank :: plusChar :: ([blank] ++ joinSep plusSep (t2 :: ts3)
              ++ [blank]) from rfl,
          countSubL_of_no_match _ _ _ (pat_no_match_at_blank_plus s _ hs),
          countSubL_of_no_match _ _ _ (pat_no_match_at_plus s _),
          ih (fun u hu => hts u (by simp [hu]))]
        rw [show List.count s (t :: t2 :: ts3) = List.count s (t2 :: ts3) by
          rw [List.count_cons]
          simp [hst]
          exact fun hx => hst hx.symm]

/-- A prefix that cannot contain `x` stops before an `x`. -/
theorem isPre_stops_at_char (u a b : List Char) (x : Char) (hx : x ∉ u)
    (h : u <+: (a ++ (x :: b))) : u <+: a := by
  rcases le_or_lt u.length a.length with hle | hgt
  · have htake := List.prefix_iff_eq_take.mp h
    rw [List.take_append_eq_append_take, Nat.sub_eq_zero_of_le hle,
      List.take_zero, List.append_nil] at htake
    rw [htake]
    exact List.take_prefix _ _
  · exfalso
    obtain ⟨w, hw⟩ := h
    have h1 : (a ++ (x :: b))[a.length]? = some x := by
      rw [List.getElem?_append_right (Nat.le_refl a.length)]
      simp
    have h2 : (a ++ (x :: b))[a.length]? = u[a.length]? := by
      rw [← hw, List.getElem?_append_left hgt]
    have h3 : u[a.length]? = some x := by rw [← h2, h1]
    rw [List.getElem?_eq_getElem hgt] at h3
    have h4 : u[a.length] = x := by injection h3
    exact hx (h4 ▸ List.getElem_mem hgt)

/-- A suffix that cannot contain `x` lies beyond the last `x`. -/
theorem isSuf_stops_at_char (u a b : List Char) (x : Char) (hx : x ∉ u) :
    u <:+ (a ++ (x :: b)) ↔ u <:+ b := by
  constructor
  · intro h
    rw [← List.reverse_prefix] at h ⊢
    have hsh : (a ++ (x :: b)).reverse = b.reverse ++ (x :: a.reverse) := by
      simp
    rw [hsh] at h
    exact isPre_stops_at_char u.reverse b.reverse a.reverse x
      (by simpa using hx) h
  · intro h
    have hsh : (a ++ (x :: b)) = (a ++ [x]) ++ b := by simp
    rw [hsh]
    exact h.trans (List.suffix_append _ _)

/-- The reactant well-string (`side ++ ' '`) never ends with `' ' ++ s`
for a well-formed `s`: its last character is the trailing space while the
pattern ends with a token character. -/
theorem ends_not_r_well (s : List Char) (hs : goodToken s)
    (ts : List (List Char)) :
    ¬ ([blank] ++ s) <:+ (joinSep plusSep ts ++ [blank]) := by
  intro h
  rw [← List.reverse_prefix] at h
  have hsh1 : ([blank] ++ s).reverse = s.reverse ++ [blank] := by simp
  have hsh2 : (joinSep plusSep ts ++ [blank]).reverse
      = blank :: (joinSep plusSep ts).reverse := by simp
  rw [hsh1, hsh2] at h
  cases hsr : s.reverse with
  | nil =>
    have : s = [] := by simpa using congrArg List.reverse hsr
    exact hs.1 this
  | cons c u =>
    rw [hsr, List.cons_append, List.cons_prefix_cons] at h
    have hcs : c ∈ s := by
      have : c ∈ s.reverse := by rw [hsr]; simp
      simpa using this
    exact goodToken_no_blank hs (h.1 ▸ hcs)

/-- The product well-string (`' ' ++ side`) never starts with `s ++ ' '`
for a well-formed `s`. -/
theorem starts_not_p_well (s : List Char) (hs : goodToken s)
    (X : List Char) : ¬ (s ++ [blank]) <+: (blank :: X) := by
  intro h
  cases hsn : s with
  | nil => exact hs.1 hsn
  | cons c u =>
    rw [hsn, List.cons_append, List.cons_prefix_cons] at h
    exact goodToken_no_blank hs (by rw [hsn, ← h.1]; simp)

/-- Start-of-segment match on the reactant well-string: `s ++ ' '` is a
prefix exactly when `s` is the first token. -/
theorem start_r_well_iff (s : List Char) (hs : goodToken s)
    (t : List Char) (ht : goodToken t) (ts2 : List (List Char)) :
    ((s ++ [blank]) <+: (joinSep plusSep (t :: ts2) ++ [blank])) ↔ s = t := by
  cases ts2 with
  | nil =>
    rw [joinSep_single,
      show (t ++ [blank] : List Char) = t ++ ([blank] ++ []) by simp]
    exact marker_isPre_iff blank s t [] (goodToken_no_blank hs)
      (goodToken_no_blank ht)
  | cons t2 ts3 =>
    rw [joinSep_cons_cons,
      show ((t ++ plusSep ++ joinSep plusSep (t2 :: ts3))
          ++ [blank] : List Char)
        = t ++ ([blank] ++ (plusChar :: ([blank]
            ++ (joinSep plusSep (t2 :: ts3) ++ [blank])))) by
        rw [plusSep_eq]; simp]
    exact marker_isPre_iff blank s t _ (goodToken_no_blank hs)
      (goodToken_no_blank ht)

/-- Inner-count on the reactant well-string: the marked pattern counts
the occurrences among the non-leading tokens. -/
theorem countSubL_pat_r_well (s : List Char) (hs : goodToken s) :
    ∀ ts : List (List Char), (∀ t ∈ ts, goodToken t) →
      countSubL ([blank] ++ s ++ [blank]) (joinSep plusSep ts ++ [blank])
        = List.count s (ts.drop 1) := by
  have hsl : 1 ≤ s.length := by
    cases hsn : s with
    | nil => exact absurd hsn hs.1
    | cons a l => simp
  intro ts hts
  cases ts with
  | nil =>
    rw [joinSep]
    apply countSubL_eq_zero
    intro t1 h1 h2 hp
    have hl1 := List.IsPrefix.length_le hp
    have hl2 := List.IsSuffix.length_le h2
    simp only [List.length_append, List.length_cons, List.length_nil,
      List.singleton_append, List.nil_append] at hl1 hl2
    omega
  | cons t ts2 =>
    have hgt := hts t (by simp)
    cases ts2 with
    | nil =>
      rw [joinSep_single,
        countSubL_eq_zero _ _ (pat_no_match_in_token_tail s t hs
          (fun c hc => hgt.2 c hc))]
      simp
    | cons t2 ts3 =>
      rw [joinSep_cons_cons,
        show ((t ++ plusSep ++ joinSep plusSep (t2 :: ts3))
            ++ [blank] : List Char)
          = t ++ ([blank] ++ (plusChar :: ([blank]
              ++ joinSep plusSep (t2 :: ts3) ++ [blank]))) by
          rw [plusSep_eq]; simp,
        countSubL_append_of_no_match _ _ _
          (pat_no_match_in_token s t _ (fun c hc => hgt.2 c hc)),
        show ([blank] ++ (plusChar :: ([blank] ++ joinSep plusSep (t2 :: ts3)
            ++ [blank])) : List Char)
          = blank :: plusChar :: ([blank] ++ joinSep plusSep (t2 :: ts3)
            ++ [blank]) from rfl,
        countSubL_of_no_match _ _ _ (pat_no_match_at_blank_plus s _ hs),
        countSubL_of_no_match _ _ _ (pat_no_match_at_plus s _),
        countSubL_pat_marked s hs (t2 :: ts3)
          (fun u hu => hts u (by simp [hu]))]
      simp

/-- The combined count on the product well-string `' ' ++ side`: inner
matches of the marked pattern plus the end-of-segment match count exactly
the token occurrences. -/
theorem count_p_well (s : List Char) (hs : goodToken s) :
    ∀ ts : List (List Char), (∀ t ∈ ts, goodToken t) →
      countSubL ([blank] ++ s ++ [blank]) ([blank] ++ joinSep plusSep ts)
        + (if ([blank] ++ s) <:+ ([blank] ++ joinSep plusSep ts) then 1 else 0)
        = List.count s ts := by
  have hsl : 1 ≤ s.length := by
    cases hsn : s with
    | nil => exact absurd hsn hs.1
    | cons a l => simp
  intro ts
  induction ts with
  | nil =>
    intro _
    rw [joinSep, List.append_nil]
    have hc : countSubL ([blank] ++ s ++ [blank]) [blank] = 0 := by
      apply countSubL_eq_zero
      intro t1 h1 h2 hp
      have hl1 := List.IsPrefix.length_le hp
      have hl2 := List.IsSuffix.length_le h2
      simp only [List.length_append, List.length_cons, List.length_nil,
        List.singleton_append, List.nil_append] at hl1 hl2
      omega
    rw [hc]
    rw [if_neg (fun hsuf => by
      have := List.IsSuffix.length_le hsuf
      simp only [List.length_append, List.length_cons, List.length_nil,
        List.singleton_append] at this
      omega)]
    simp
  | cons t ts2 ih =>
    intro hts
    have hgt := hts t (by simp)
    cases ts2 with
    | nil =>
      rw [joinSep_single]
      have hc : countSubL ([blank] ++ s ++ [blank]) ([blank] ++ t) = 0 := by
        rw [show ([blank] ++ t : List Char) = blank :: t from rfl,
          countSubL_of_no_match _ _ _ (fun hp => by
            rw [show ([blank] ++ s ++ [blank] : List Char)
                = blank :: (s ++ [blank]) from rfl,
              List.cons_prefix_cons] at hp
            exact goodToken_no_blank hgt
              (List.IsPrefix.subset hp.2 (by simp)))]
        apply countSubL_eq_zero
        intro t1 h1 h2 hp
        exact pat_no_match_in_token s t [] (fun c hc2 => hgt.2 c hc2) t1 h1 h2
          (by simpa using hp)
      rw [hc]
      have hiff : (([blank] ++ s) <:+ ([blank] ++ t)) ↔ s = t := by
        have := marker_isSuf_iff blank s t [] (goodToken_no_blank hs)
          (goodToken_no_blank hgt)
        simpa using this
      by_cases hst : s = t
      · rw [if_pos (hiff.mpr hst), List.count_cons]
        simp [hst]
      · rw [if_neg (fun hx => hst (hiff.mp hx)), List.count_cons]
        simp only [List.count_nil, beq_iff_eq]
        rw [if_neg (fun hx : t = s => hst hx.symm)]
    | cons t2 ts3 =>
      have hVsh : ([blank] ++ joinSep plusSep (t :: t2 :: ts3) : List Char)
          = ([blank] ++ t ++ [blank])
            ++ (plusChar :: ([blank] ++ joinSep plusSep (t2 :: ts3))) := by
        rw [joinSep_cons_cons, plusSep_eq]
        simp
      rw [hVsh]
      have hplus_not : plusChar ∉ ([blank] ++ s : List Char) := by
        intro hm
        rcases List.mem_append.mp hm with h1 | h2
        · simp at h1
          exact absurd h1.symm (by decide)
        · exact goodToken_no_plus hs h2
      have hends := isSuf_stops_at_char ([blank] ++ s) ([blank] ++ t ++ [blank])
        ([blank] ++ joinSep plusSep (t2 :: ts3)) plusChar hplus_not
      have hih := ih (fun u hu => hts u (by simp [hu]))
      by_cases hst : s = t
      · subst hst
        rw [countSubL_self_append _ _ (by simp),
          countSubL_of_no_match _ _ _ (pat_no_match_at_plus s _)]
        simp only [hends]
        rw [show List.count s (s :: t2 :: ts3)
            = List.count s (t2 :: ts3) + 1 by
          rw [List.count_cons]
          simp]
        omega
      · have hA : ∀ t1, t1 ≠ [] → t1 <:+ ([blank] ++ t ++ [blank]) →
            ¬ ([blank] ++ s ++ [blank]) <+: (t1
              ++ (plusChar :: ([blank] ++ joinSep plusSep (t2 :: ts3)))) := by
          intro t1 h1 h2 hp
          rw [show ([blank] ++ t ++ [blank] : List Char)
              = blank :: (t ++ [blank]) from rfl] at h2
          rcases List.suffix_cons_iff.mp h2 with h2 | h2
          · rw [h2] at hp
            rw [show ((blank :: (t ++ [blank])) ++ (plusChar :: ([blank]
                ++ joinSep plusSep (t2 :: ts3))) : List Char)
              = blank :: (t ++ ([blank] ++ (plusChar :: ([blank]
                ++ joinSep plusSep (t2 :: ts3))))) by simp] at hp
            rw [show ([blank] ++ s ++ [blank] : List Char)
                = blank :: (s ++ [blank]) from rfl,
              List.cons_prefix_cons] at hp
            exact hst ((marker_isPre_iff blank s t _ (goodToken_no_blank hs)
              (goodToken_no_blank hgt)).mp hp.2)
          · rcases suffix_append_singleton t1 t blank h2 with rfl | ⟨t2c, ht2c, rfl⟩
            · exact h1 rfl
            · cases t2c with
              | nil =>
                rw [show (([] ++ [blank] : List Char)
                    ++ (plusChar :: ([blank] ++ joinSep plusSep (t2 :: ts3))))
                  = blank :: plusChar :: ([blank]
                    ++ joinSep plusSep (t2 :: ts3)) by simp] at hp
                exact pat_no_match_at_blank_plus s _ hs hp
              | cons c2 t2cs =>
                rw [show ((c2 :: t2cs ++ [blank] : List Char)
                    ++ (plusChar :: ([blank] ++ joinSep plusSep (t2 :: ts3))))
                  = (c2 :: t2cs) ++ ([blank] ++ (plusChar :: ([blank]
                    ++ joinSep plusSep (t2 :: ts3)))) by simp] at hp
                exact pat_no_match_in_token s t _
                  (fun c hc2 => hgt.2 c hc2) (c2 :: t2cs) (by simp) ht2c hp
        rw [countSubL_append_of_no_match _ _ _ hA,
          countSubL_of_no_match _ _ _ (pat_no_match_at_plus s _)]
        simp only [hends]
        rw [show List.count s (t :: t2 :: ts3) = List.count s (t2 :: ts3) by
          rw [List.count_cons]
          simp [hst]
          exact fun hx => hst hx.symm]
        omega

unseal splitOnL countSubL in
/-- C7 (counterexample): for the label `'A <=> B'` and species label `'A'`,
`get_species_count` returns 1 for the reactant well, while the claim's
formula — 1 plus the occurrences of the marked patterns `'A '`, `' A'`,
`' A '` — yields 2: the leading `1 +` double-counts the `startswith`
match, which the code folds into the sum rather than adding on top. -/
theorem c7_count_formula_cex :
    get_species_count ("A <=> B".data) ("A".data) 0 = 1
      ∧ claimCount ("A <=> B".data) ("A".data) 0 = 2 := by
  constructor
  · rfl
  · rfl

/-- C7 (amended): for a record label composed from reactant and product
token lists (non-empty tokens free of the space, plus and angle
delimiters), `get_species_count` computes exactly the token multiplicity:
the number of occurrences of the species label among that side's tokens —
startswith + inner whole-token count + endswith, not `1 +` anything. -/
theorem c7_species_count_amended (rts pts : List (List Char)) (s : List Char)
    (hs : goodToken s) (hr : ∀ t ∈ rts, goodToken t)
    (hp : ∀ t ∈ pts, goodToken t) :
    get_species_count (composeLabel rts pts) s 0 = List.count s rts
      ∧ get_species_count (composeLabel rts pts) s 1 = List.count s pts := by
  have hsplit := splitOnL_arrowBare_composeLabel rts pts hr hp
  have hsl : 1 ≤ s.length := by
    cases hsn : s with
    | nil => exact absurd hsn hs.1
    | cons a l => simp
  constructor
  · simp only [get_species_count, hsplit, List.getD_cons_zero]
    rw [countSubL_pat_r_well s hs rts hr,
      if_neg (ends_not_r_well s hs rts)]
    cases rts with
    | nil =>
      have hstart : ¬ ((s ++ [blank]) <+:
          (joinSep plusSep ([] : List (List Char)) ++ [blank])) := by
        intro hx
        have hl := List.IsPrefix.length_le hx
        simp only [joinSep, List.nil_append, List.length_append,
          List.length_cons, List.length_nil] at hl
        omega
      rw [if_neg hstart]
      simp
    | cons t ts2 =>
      have hgt := hr t (by simp)
      by_cases hst : s = t
      · rw [if_pos ((start_r_well_iff s hs t hgt ts2).mpr hst)]
        subst hst
        rw [List.count_cons_self]
        simp only [List.drop_succ_cons, List.drop_zero]
        omega
      · rw [if_neg (fun hx => hst ((start_r_well_iff s hs t hgt ts2).mp hx)),
          List.count_cons_of_ne hst]
        simp only [List.drop_succ_cons, List.drop_zero]
        omega
  · simp only [get_species_count, hsplit, List.getD_cons_succ,
      List.getD_cons_zero]
    have hstart : ¬ ((s ++ [blank]) <+: ([blank] ++ joinSep plusSep pts)) :=
      fun hx => starts_not_p_well s hs (joinSep plusSep pts) hx
    rw [if_neg hstart]
    have hcp := count_p_well s hs pts hp
    omega

unseal splitOnL countSubL in
/-- C7 witness: the composed label `'A + A <=> B'` gives species `'A'`
count 2 in the reactant well and 0 in the product well. -/
theorem c7_species_count_amended_witness :
    get_species_count (composeLabel ["A".data, "A".data] ["B".data])
        ("A".data) 0 = 2
      ∧ get_species_count (composeLabel ["A".data, "A".data] ["B".data])
        ("A".data) 1 = 0 := by
  have h := c7_species_count_amended ["A".data, "A".data] ["B".data]
    ("A".data) (by decide) (by decide) (by decide)
  refine ⟨?_, ?_⟩
  · rw [h.1]
    rfl
  · rw [h.2]
    rfl

theorem balanced_wells_false_iff (W0 W1 : List Elem) :
    balanced_wells W0 W1 = false
      ↔ (W0 ≠ [] ∧ W1 ≠ [] ∧ check_atom_balance_pair W0 W1 = false) := by
  rw [balanced_wells]
  by_cases hc : W0 ≠ [] ∧ W1 ≠ []
  · rw [if_pos hc]
    exact ⟨fun h => ⟨hc.1, hc.2, h⟩, fun h => h.2.2⟩
  · rw [if_neg hc]
    simp only [Bool.true_eq_false, false_iff]
    exact fun h => hc ⟨h.1, h.2.1⟩

theorem balanced_ts_xyz_false_iff (tx : Option (List Elem)) (W0 : List Elem) :
    balanced_ts_xyz tx W0 = false
      ↔ (W0 ≠ [] ∧ optTruthy tx
          ∧ check_atom_balance_pair (tx.getD []) W0 = false) := by
  rw [balanced_ts_xyz]
  by_cases hc : W0 ≠ [] ∧ optTruthy tx
  · rw [if_pos hc]
    exact ⟨fun h => ⟨hc.1, hc.2, h⟩, fun h => h.2.2⟩
  · rw [if_neg hc]
    simp only [Bool.true_eq_false, false_iff]
    exact fun h => hc ⟨h.1, h.2.1⟩

theorem balanced_xyz_guess_false_iff (r : RxnObj) (W0 : List Elem) :
    balanced_xyz_guess r W0 = false
      ↔ (W0 ≠ [] ∧ ∃ g ∈ r.ts_xyz_guess, check_atom_balance_pair g W0 = false) := by
  rw [balanced_xyz_guess]
  by_cases hc : W0 ≠ []
  · rw [if_pos hc]
    constructor
    · intro h
      refine ⟨hc, ?_⟩
      by_contra hno
      push_neg at hno
      have hall : r.ts_xyz_guess.all (fun g => check_atom_balance_pair g W0)
          = true := by
        rw [List.all_eq_true]
        intro g hg
        cases hb : check_atom_balance_pair g W0 with
        | false => exact absurd hb (hno g hg)
        | true => rfl
      rw [hall] at h
      exact Bool.noConfusion h
    · rintro ⟨-, g, hg, hb⟩
      cases hall : r.ts_xyz_guess.all (fun g => check_atom_balance_pair g W0) with
      | false => rfl
      | true =>
        rw [List.all_eq_true] at hall
        rw [hall g hg] at hb
        exact Bool.noConfusion hb
  · rw [if_neg hc]
    simp only [Bool.true_eq_false, false_iff]
    exact fun h => hc h.1

theorem balanced_ts_species_mol_false_iff (r : RxnObj) (W0 : List Elem) :
    balanced_ts_species_mol r W0 = false
      ↔ (W0 ≠ [] ∧ ∃ ts0 m, r.ts_species = some ts0 ∧ ts0.mol = some m
          ∧ check_atom_balance_pair m W0 = false) := by
  rw [balanced_ts_species_mol]
  by_cases hc : W0 ≠ []
  · rw [if_pos hc]
    split
    next ts0 heq =>
      split
      next m hmeq =>
        constructor
        · intro h
          exact ⟨hc, ts0, m, heq, hmeq, h⟩
        · rintro ⟨-, ts1, m1, hts2, hm2, hb⟩
          rw [heq] at hts2
          injection hts2 with he
          rw [← he, hmeq] at hm2
          injection hm2 with hme
          rw [hme]
          exact hb
      next hmeq =>
        refine iff_of_false (fun h => Bool.noConfusion h) ?_
        rintro ⟨-, ts1, m1, hts2, hm2, -⟩
        rw [heq] at hts2
        injection hts2 with he
        rw [← he, hmeq] at hm2
        exact Option.noConfusion hm2
    next heq =>
      refine iff_of_false (fun h => Bool.noConfusion h) ?_
      rintro ⟨-, ts1, m1, hts2, -, -⟩
      rw [heq] at hts2
      exact Option.noConfusion hts2
  · rw [if_neg hc]
    simp only [Bool.true_eq_false, false_iff]
    exact fun h => hc h.1

theorem balanced_ts_species_xyz_false_iff (r : RxnObj) (W0 : List Elem) :
    balanced_ts_species_xyz r W0 = false
      ↔ (W0 ≠ [] ∧ ∃ ts0 x, r.ts_species = some ts0 ∧ getXyz ts0 true = some x
          ∧ check_atom_balance_pair x W0 = false) := by
  rw [balanced_ts_species_xyz]
  by_cases hc : W0 ≠ []
  · rw [if_pos hc]
    split
    next ts0 heq =>
      split
      next x hxeq =>
        constructor
        · intro h
          exact ⟨hc, ts0, x, heq, hxeq, h⟩
        · rintro ⟨-, ts1, x1, hts2, hx2, hb⟩
          rw [heq] at hts2
          injection hts2 with he
          rw [← he, hxeq] at hx2
          injection hx2 with hxe
          rw [hxe]
          exact hb
      next hxeq =>
        refine iff_of_false (fun h => Bool.noConfusion h) ?_
        rintro ⟨-, ts1, x1, hts2, hx2, -⟩
        rw [heq] at hts2
        injection hts2 with he
        rw [← he, hxeq] at hx2
        exact Option.noConfusion hx2
    next heq =>
      refine iff_of_false (fun h => Bool.noConfusion h) ?_
      rintro ⟨-, ts1, x1, hts2, -, -⟩
      rw [heq] at hts2
      exact Option.noConfusion hts2
  · rw [if_neg hc]
    simp only [Bool.true_eq_false, false_iff]
    exact fun h => hc h.1

/-- The aggregated flag conjunction of `check_atom_balance` is `True`
exactly when no determinable comparison fails. -/
theorem balance_flags_iff (r : RxnObj) (tx : Option (List Elem)) :
    (balanced_wells (wellOf r 0) (wellOf r 1) && balanced_ts_xyz tx (wellOf r 0)
      && balanced_ts_species_mol r (wellOf r 0)
      && balanced_ts_species_xyz r (wellOf r 0)
      && balanced_xyz_guess r (wellOf r 0)) = true
    ↔ ¬ specBalanceFailure r tx := by
  constructor
  · intro hall hfail
    simp only [Bool.and_eq_true] at hall
    obtain ⟨⟨⟨⟨hw, hx⟩, hm⟩, hxy⟩, hg⟩ := hall
    rcases hfail with h | h | h | h | h
    · rw [(balanced_wells_false_iff _ _).mpr h] at hw
      exact Bool.noConfusion hw
    · rw [(balanced_xyz_guess_false_iff _ _).mpr h] at hg
      exact Bool.noConfusion hg
    · rw [(balanced_ts_xyz_false_iff _ _).mpr h] at hx
      exact Bool.noConfusion hx
    · rw [(balanced_ts_species_mol_false_iff _ _).mpr h] at hm
      exact Bool.noConfusion hm
    · rw [(balanced_ts_species_xyz_false_iff _ _).mpr h] at hxy
      exact Bool.noConfusion hxy
  · intro hnf
    simp only [Bool.and_eq_true]
    refine ⟨⟨⟨⟨?_, ?_⟩, ?_⟩, ?_⟩, ?_⟩
    · cases hb : balanced_wells (wellOf r 0) (wellOf r 1) with
      | true => rfl
      | false =>
        exact absurd (Or.inl ((balanced_wells_false_iff _ _).mp hb)) hnf
    · cases hb : balanced_ts_xyz tx (wellOf r 0) with
      | true => rfl
      | false =>
        exact absurd (Or.inr (Or.inr (Or.inl
          ((balanced_ts_xyz_false_iff _ _).mp hb)))) hnf
    · cases hb : balanced_ts_species_mol r (wellOf r 0) with
      | true => rfl
      | false =>
        exact absurd (Or.inr (Or.inr (Or.inr (Or.inl
          ((balanced_ts_species_mol_false_iff _ _).mp hb))))) hnf
    · cases hb : balanced_ts_species_xyz r (wellOf r 0) with
      | true => rfl
      | false =>
        exact absurd (Or.inr (Or.inr (Or.inr (Or.inr
          ((balanced_ts_species_xyz_false_iff _ _).mp hb))))) hnf
    · cases hb : balanced_xyz_guess r (wellOf r 0) with
      | true => rfl
      | false =>
        exact absurd (Or.inr (Or.inl
          ((balanced_xyz_guess_false_iff _ _).mp hb))) hnf

/-- Every disjunct of a determinable balance failure requires a
determinable reactant well. -/
theorem specBalanceFailure_needs_r_well (r : RxnObj) (tx : Option (List Elem))
    (hw : wellOf r 0 = []) : ¬ specBalanceFailure r tx := by
  rintro (h | h | h | h | h) <;> exact h.1 hw

/-- C6: `check_atom_balance` raises `ReactionError` by default exactly when
some determinable comparison (wells, a TS user guess, a truthy alternate
TS xyz, the TS species' mol graph or geometry) mismatches in elemental
composition; with `raise_error=False` it returns `False` in exactly those
cases; it returns `True` exactly when no determinable check failed — in
particular vacuously when the reactant well is not determinable. -/
theorem c6_atom_balance_aggregate (r0 : RxnObj) (tx : Option (List Elem))
    (re : Bool) :
    (check_atom_balance_with r0 tx re = .ok true
        ↔ ¬ specBalanceFailure (populateSpecies r0) tx)
    ∧ (check_atom_balance_with r0 tx true = .error .reactionError
        ↔ specBalanceFailure (populateSpecies r0) tx)
    ∧ (check_atom_balance_with r0 tx false = .ok false
        ↔ specBalanceFailure (populateSpecies r0) tx)
    ∧ (wellOf (populateSpecies r0) 0 = []
        → check_atom_balance_with r0 tx re = .ok true) := by
  set B := (balanced_wells (wellOf (populateSpecies r0) 0)
        (wellOf (populateSpecies r0) 1)
      && balanced_ts_xyz tx (wellOf (populateSpecies r0) 0)
      && balanced_ts_species_mol (populateSpecies r0) (wellOf (populateSpecies r0) 0)
      && balanced_ts_species_xyz (populateSpecies r0) (wellOf (populateSpecies r0) 0)
      && balanced_xyz_guess (populateSpecies r0) (wellOf (populateSpecies r0) 0))
    with hBdef
  have hmain : ∀ b : Bool, check_atom_balance_with r0 tx b
      = (if B then (.ok true : Except ArcErr Bool)
         else if b then .error .reactionError else .ok false) := fun b => rfl
  have hiff2 : B = true ↔ ¬ specBalanceFailure (populateSpecies r0) tx :=
    balance_flags_iff (populateSpecies r0) tx
  by_cases hfail : specBalanceFailure (populateSpecies r0) tx
  · have hB : B = false := by
      cases hb2 : B with
      | false => rfl
      | true => exact absurd (hiff2.mp hb2) (not_not_intro hfail)
    have hcond : ¬ (B = true) := by
      rw [hB]
      exact Bool.noConfusion
    refine ⟨?_, ?_, ?_, ?_⟩
    · rw [hmain re, if_neg hcond]
      refine iff_of_false ?_ (not_not_intro hfail)
      cases re with
      | true => exact fun h => Except.noConfusion h
      | false =>
        intro h
        injection h with hv
        exact Bool.noConfusion hv
    · rw [hmain true, if_neg hcond, if_pos rfl]
      exact iff_of_true rfl hfail
    · rw [hmain false, if_neg hcond,
        if_neg (fun hh : false = true => Bool.noConfusion hh)]
      exact iff_of_true rfl hfail
    · intro hw0
      exact absurd hfail (specBalanceFailure_needs_r_well _ tx hw0)
  · have hB : B = true := hiff2.mpr hfail
    refine ⟨?_, ?_, ?_, ?_⟩
    · rw [hmain re, if_pos hB]
      exact iff_of_true rfl hfail
    · rw [hmain true, if_pos hB]
      exact iff_of_false (fun h => Except.noConfusion h) hfail
    · rw [hmain false, if_pos hB]
      refine iff_of_false ?_ hfail
      intro h
      injection h with hv
      exact Bool.noConfusion hv
    · intro _
      rw [hmain re, if_pos hB]

unseal splitOnL countSubL in
/-- C6 witness: a record whose single reactant lacks geometry passes
vacuously, and a record with determinable but differently composed wells
raises `ReactionError`. -/
theorem c6_atom_balance_aggregate_witness :
    check_atom_balance_with
        (demoRxnWith "A <=> B" none none [demoSpc "A" 2 none] [demoSpcB]
          none [] none none) none true = .ok true
      ∧ check_atom_balance_with
        (demoRxnWith "A <=> B" none none [demoSpcA]
          [demoSpc "B" 2 (some ["O"])] none [] none none) none true
        = .error .reactionError := by
  constructor
  · exact (c6_atom_balance_aggregate
      (demoRxnWith "A <=> B" none none [demoSpc "A" 2 none] [demoSpcB]
        none [] none none) none true).2.2.2 rfl
  · exact (c6_atom_balance_aggregate
      (demoRxnWith "A <=> B" none none [demoSpcA]
        [demoSpc "B" 2 (some ["O"])] none [] none none) none true).2.1.mpr
      (Or.inl ⟨by decide, by decide, by decide⟩)

theorem exSeq_error (e : ArcErr) (b : Except ArcErr RxnObj) :
    exSeq (.error e) b = .error e := rfl

theorem exSeq_okUnit (b : Except ArcErr RxnObj) : exSeq (.ok ()) b = b := rfl

theorem exSeq_ok_inv (a : Except ArcErr Unit) (b : Except ArcErr RxnObj)
    (r : RxnObj) (h : exSeq a b = .ok r) : a = .ok () ∧ b = .ok r := by
  cases a with
  | error e => exact absurd h (by simp [exSeq])
  | ok u =>
    cases u
    exact ⟨rfl, h⟩

/-- `checkListSide` raises only `ReactionError`. -/
theorem checkListSide_error_eq (lt : List (List Char))
    (d : Option (List (List Char))) (e : ArcErr)
    (h : checkListSide lt d = .error e) : e = .reactionError := by
  cases d with
  | none => exact absurd h (by simp [checkListSide])
  | some l =>
    simp only [checkListSide] at h
    split at h
    · exact absurd h (by simp)
    · injection h with he
      exact he.symm

/-- `checkSpcSide` with a present declared list raises only
`ReactionError`. -/
theorem checkSpcSide_some_error_eq (lt l : List (List Char))
    (spcs : List ArcSpc) (e : ArcErr)
    (h : checkSpcSide lt (some l) spcs = .error e) : e = .reactionError := by
  simp only [checkSpcSide] at h
  split at h
  · exact absurd h (by simp)
  · injection h with he
    exact he.symm

/-- With a present declared list, an empty species list fails the
label-token containment loop (the label's token list is never empty). -/
theorem checkSpcSide_empty_spcs (lt l : List (List Char)) (hlt : lt ≠ []) :
    checkSpcSide lt (some l) [] = .error .reactionError := by
  have hcond : ¬ ((∀ s ∈ ([] : List ArcSpc), s.label ∈ l)
      ∧ (∀ x ∈ lt, x ∈ ([] : List ArcSpc).map (·.label))
      ∧ (∀ x ∈ l, x ∈ ([] : List ArcSpc).map (·.label))) := by
    rintro ⟨-, h2, -⟩
    cases hlt2 : lt with
    | nil => exact hlt hlt2
    | cons a as =>
      have hm := h2 a (by rw [hlt2]; simp)
      simp at hm
  simp only [checkSpcSide]
  rw [if_neg hcond]

/-- `checkSpcSide` passes only on a non-empty species list (when the label
has at least one token on that side). -/
theorem checkSpcSide_ok_inv (lt : List (List Char))
    (d : Option (List (List Char))) (spcs : List ArcSpc) (u : Unit)
    (h : checkSpcSide lt d spcs = .ok u) (hlt : lt ≠ []) : spcs ≠ [] := by
  cases d with
  | none =>
    simp only [checkSpcSide] at h
    split at h
    · exact absurd h (by simp)
    · split at h <;> exact absurd h (by simp)
  | some l =>
    simp only [checkSpcSide] at h
    split at h
    next hc =>
      intro hs
      rcases hc with ⟨-, h2, -⟩
      cases hlt2 : lt with
      | nil => exact hlt hlt2
      | cons a as =>
        have hm := h2 a (by rw [hlt2]; simp)
        rw [hs] at hm
        simp at hm
    next hc => exact absurd h (by simp)

/-- `rmg_reaction_from_arc_species` only ever writes `rmg_reaction`. -/
theorem rmg_from_arc_preserves (r : RxnObj) :
    (rmg_reaction_from_arc_species r).reactants = r.reactants
      ∧ (rmg_reaction_from_arc_species r).products = r.products
      ∧ (rmg_reaction_from_arc_species r).r_species = r.r_species
      ∧ (rmg_reaction_from_arc_species r).p_species = r.p_species := by
  unfold rmg_reaction_from_arc_species
  split <;> simp

/-- `set_label_reactants_products` on a record with both lists present
always succeeds and keeps the lists and the species references. -/
theorem set_label_obj_full_fields (r : RxnObj) (rl pl : List (List Char))
    (h1 : r.reactants = some rl) (h2 : r.products = some pl) :
    ∃ r1, set_label_obj r = .ok r1 ∧ r1.reactants = some rl
      ∧ r1.products = some pl ∧ r1.r_species = r.r_species
      ∧ r1.p_species = r.p_species := by
  by_cases h3 : r.label = []
  · rw [set_label_obj_of_lists r rl pl h1 h2 h3]
    by_cases hg : r.rmg_reaction = none
    · rw [if_pos hg]
      exact ⟨_, rfl, by rw [(rmg_from_arc_preserves _).1]; exact h1,
        by rw [(rmg_from_arc_preserves _).2.1]; exact h2,
        (rmg_from_arc_preserves _).2.2.1, (rmg_from_arc_preserves _).2.2.2⟩
    · rw [if_neg hg]
      exact ⟨_, rfl, h1, h2, rfl, rfl⟩
  · rw [set_label_obj_of_full r rl pl h1 h2 h3]
    by_cases hg : r.rmg_reaction = none
    · rw [if_pos hg]
      exact ⟨_, rfl, by rw [(rmg_from_arc_preserves _).1]; exact h1,
        by rw [(rmg_from_arc_preserves _).2.1]; exact h2,
        (rmg_from_arc_preserves _).2.2.1, (rmg_from_arc_preserves _).2.2.2⟩
    · rw [if_neg hg]
      exact ⟨_, rfl, h1, h2, rfl, rfl⟩

/-- C10: `check_attributes` passes only on records with resolved species
references on both sides, and with the declared lists present an empty
`r_species` or `p_species` always makes it raise `ReactionError` — the
label's token lists are never empty, so the containment loop over them
finds a token missing from the empty species-label list. -/
theorem c10_check_attributes_requires_species (r0 : RxnObj)
    (rl pl : List (List Char)) :
    (∀ r, check_attributes r0 = .ok r → r.r_species ≠ [] ∧ r.p_species ≠ [])
    ∧ (r0.reactants = some rl → r0.products = some pl →
        r0.r_species = [] ∨ r0.p_species = [] →
        check_attributes r0 = .error .reactionError) := by
  constructor
  · intro r h
    unfold check_attributes at h
    cases hset : set_label_obj r0 with
    | error e =>
      rw [hset] at h
      exact absurd h (by simp)
    | ok r1 =>
      rw [hset] at h
      dsimp only at h
      split at h
      · exact absurd h (by simp)
      · split at h
        · exact absurd h (by simp)
        · split at h
          · exact absurd h (by simp)
          · obtain ⟨ha1, h⟩ := exSeq_ok_inv _ _ _ h
            obtain ⟨ha2, h⟩ := exSeq_ok_inv _ _ _ h
            obtain ⟨ha3, h⟩ := exSeq_ok_inv _ _ _ h
            obtain ⟨ha4, h⟩ := exSeq_ok_inv _ _ _ h
            injection h with hr
            subst hr
            exact ⟨checkSpcSide_ok_inv _ _ _ _ ha3 (splitOnL_ne_nil _ _),
              checkSpcSide_ok_inv _ _ _ _ ha4 (splitOnL_ne_nil _ _)⟩
  · intro h1 h2 hemp
    obtain ⟨r1, hset, hr1r, hr1p, hrs, hps⟩ :=
      set_label_obj_full_fields r0 rl pl h1 h2
    unfold check_attributes
    rw [hset]
    dsimp only
    by_cases hlbl : r1.label = []
    · rw [if_pos hlbl]
    · rw [if_neg hlbl]
      by_cases harr : arrowSep <:+: r1.label
      · rw [if_neg (not_not_intro harr)]
        by_cases hplus : plusChar ∈ r1.label ∧ ¬ plusSep <:+: r1.label
        · rw [if_pos hplus]
        · rw [if_neg hplus]
          rw [hr1r, hr1p]
          rcases hemp with hemp | hemp
          · have hrs0 : r1.r_species = [] := by rw [hrs, hemp]
            cases hc1 : checkListSide (splitOnL plusSep
                ((splitOnL arrowSep r1.label).getD 0 [])) (some rl) with
            | error e =>
              rw [exSeq_error, checkListSide_error_eq _ _ _ hc1]
            | ok u =>
              cases u
              rw [exSeq_okUnit]
              cases hc2 : checkListSide (splitOnL plusSep
                  ((splitOnL arrowSep r1.label).getD 1 [])) (some pl) with
              | error e =>
                rw [exSeq_error, checkListSide_error_eq _ _ _ hc2]
              | ok u =>
                cases u
                rw [exSeq_okUnit, hrs0,
                  checkSpcSide_empty_spcs _ _ (splitOnL_ne_nil _ _),
                  exSeq_error]
          · have hps0 : r1.p_species = [] := by rw [hps, hemp]
            cases hc1 : checkListSide (splitOnL plusSep
                ((splitOnL arrowSep r1.label).getD 0 [])) (some rl) with
            | error e =>
              rw [exSeq_error, checkListSide_error_eq _ _ _ hc1]
            | ok u =>
              cases u
              rw [exSeq_okUnit]
              cases hc2 : checkListSide (splitOnL plusSep
                  ((splitOnL arrowSep r1.label).getD 1 [])) (some pl) with
              | error e =>
                rw [exSeq_error, checkListSide_error_eq _ _ _ hc2]
              | ok u =>
                cases u
                rw [exSeq_okUnit]
                cases hc3 : checkSpcSide (splitOnL plusSep
                    ((splitOnL arrowSep r1.label).getD 0 [])) (some rl)
                    r1.r_species with
                | error e =>
                  rw [exSeq_error, checkSpcSide_some_error_eq _ _ _ _ hc3]
                | ok u =>
                  cases u
                  rw [exSeq_okUnit, hps0,
                    checkSpcSide_empty_spcs _ _ (splitOnL_ne_nil _ _),
                    exSeq_error]
      · rw [if_pos harr]

/-- C10 witness: a record with declared lists, a consistent label and an
empty `r_species` is rejected with `ReactionError`. -/
theorem c10_check_attributes_requires_species_witness :
    check_attributes (demoRxnWith "A <=> B" (some ["A".data])
        (some ["B".data]) [] [demoSpcB] none [] none none)
      = .error .reactionError :=
  (c10_check_attributes_requires_species _ ["A".data] ["B".data]).2
    rfl rfl (Or.inl rfl)

/-- `set_label_reactants_products` is the identity on a record with both
lists, a label, no species references and no RMG reaction (nothing to
derive or synthesize). -/
theorem set_label_obj_id_of_full (r : RxnObj) (rl pl : List (List Char))
    (h1 : r.reactants = some rl) (h2 : r.products = some pl)
    (h3 : r.label ≠ []) (h4 : r.r_species = [])
    (h7 : r.rmg_reaction = none) : set_label_obj r = .ok r := by
  rw [set_label_obj_of_full r rl pl h1 h2 h3, if_pos h7,
    rmg_from_arc_of_no_species _ h4]

unseal splitOnL countSubL in
/-- C3: the claimed round-trip law holds only for records without species
references: a record with declared lists, a non-empty label, no species
references, no attached RMG reaction and already-lower-cased `ts_methods`
is reproduced exactly by `from_dict(as_dict(r))`; but as soon as a species
was persisted (here the sample record with one reactant species),
rehydration crashes with `AttributeError`, because `from_dict` calls
`.from_dict()` on the plain species dictionaries. -/
theorem c3_round_trip_and_crash (r : RxnObj) (rl pl : List (List Char))
    (h1 : r.reactants = some rl) (h2 : r.products = some pl)
    (h3 : r.label ≠ []) (h4 : r.r_species = []) (h5 : r.p_species = [])
    (h6 : r.ts_species = none) (h7 : r.rmg_reaction = none)
    (h8 : r.ts_methods.map lowerToken = r.ts_methods) :
    from_dict (as_dict r) none = .ok r
      ∧ from_dict (as_dict demoRxn) none = .error .attributeError := by
  constructor
  · obtain ⟨lbl, rea, pro, rs, ps, tss, rmg, mult, chg, idx, fam, fr, lkd,
      tsm, txg, tsl2, pps, amc⟩ := r
    simp only at h1 h2 h3 h4 h5 h6 h7 h8
    subst h1 h2 h4 h5 h6 h7
    have hsl := set_label_obj_id_of_full
      ⟨lbl, some rl, some pl, [], [], none, none, mult, chg, idx, fam, fr,
        [], [], [], none, none, none⟩
      rl pl rfl rfl h3 rfl rfl
    unfold from_dict
    dsimp only [as_dict, Option.getD]
    rw [hsl]
    dsimp only
    rw [if_neg (by simp)]
    rw [if_neg (by simp)]
    dsimp only
    rw [hsl]
    dsimp only
    rw [h8]
    rfl
  · rfl

/-- C3 witness: a concrete species-free record round-trips, and the sample
record with a persisted reactant species crashes on rehydration. -/
theorem c3_round_trip_and_crash_witness :
    from_dict (as_dict (demoRxnWith "A <=> B" (some ["A".data])
        (some ["B".data]) [] [] none [] (some 2) none)) none
      = .ok (demoRxnWith "A <=> B" (some ["A".data]) (some ["B".data])
        [] [] none [] (some 2) none)
      ∧ from_dict (as_dict demoRxn) none = .error .attributeError :=
  c3_round_trip_and_crash _ ["A".data] ["B".data] rfl rfl (by decide) rfl rfl
    rfl rfl rfl

theorem rxn_cache_eta (r : RxnObj) (hc : r.atom_map_cache = none) :
    { r with atom_map_cache := none } = r := by
  obtain ⟨f1, f2, f3, f4, f5, f6, f7, f8, f9, f10, f11, f12, f13, f14, f15,
    f16, f17, f18⟩ := r
  simp only at hc
  subst hc
  rfl

/-- C8 (counterexample): on a record that already carries a cached atom
map (set via the setter or restored by `from_dict`) but whose reactant
lacks resolved geometry, the property read returns the stale cached map,
not `None` — the "lacks geometry ⟹ returns None" reading only holds
before anything is cached. -/
theorem c8_cached_map_cex :
    atom_map_read demoSvc (demoRxnWith "A <=> B" none none
        [demoSpc "A" 2 none] [demoSpcB] none [] none (some [0]))
      = .ok (demoRxnWith "A <=> B" none none [demoSpc "A" 2 none] [demoSpcB]
          none [] none (some [0]), some [0]) := by
  rfl

/-- C8 (amended): on a record with NOTHING CACHED YET, the `atom_map`
property read returns `None` without raising and without mutating the
record when some species lacks already-resolved geometry, and likewise
when the alignment computation yields `None` (which it does whenever the
service's structural validation rejects either side); a successful map is
cached on the record, and any later read — under any service — returns the
cached permutation without recomputation. -/
theorem c8_atom_map_amended (svc svc2 : AlignService) (r : RxnObj)
    (mp : List Nat) (hc : r.atom_map_cache = none) :
    (¬ (∀ s ∈ r.r_species ++ r.p_species, (getXyz s false).isSome) →
        atom_map_read svc r = .ok (r, none))
    ∧ ((∀ s ∈ r.r_species ++ r.p_species, (getXyz s false).isSome) →
        get_atom_map svc r = .ok none →
        atom_map_read svc r = .ok (r, none))
    ∧ ((∀ s ∈ r.r_species ++ r.p_species, (getXyz s false).isSome) →
        get_atom_map svc r = .ok (some mp) →
        atom_map_read svc r
            = .ok ({ r with atom_map_cache := some mp }, some mp)
          ∧ atom_map_read svc2 { r with atom_map_cache := some mp }
            = .ok ({ r with atom_map_cache := some mp }, some mp))
    ∧ (∀ rx px, r.r_species.mapM (fun s => getXyz s true) = some rx →
        r.p_species.mapM (fun s => getXyz s true) = some px →
        ¬ (svc.validates (qcInputOf r.r_species rx r.charge r.multiplicity)
            ∧ svc.validates (qcInputOf r.p_species px r.charge r.multiplicity)) →
        get_atom_map svc r = .ok none) := by
  refine ⟨?_, ?_, ?_, ?_⟩
  · intro hna
    unfold atom_map_read
    rw [if_neg (fun hx => hna hx.2), hc]
  · intro hall hmap
    unfold atom_map_read
    rw [if_pos ⟨hc, hall⟩, hmap]
    dsimp only
    rw [rxn_cache_eta r hc]
  · intro hall hmap
    constructor
    · unfold atom_map_read
      rw [if_pos ⟨hc, hall⟩, hmap]
    · unfold atom_map_read
      rw [if_neg (by simp)]
  · intro rx px hrx hpx hval
    unfold get_atom_map
    rw [hrx, hpx]
    dsimp only
    rw [if_neg hval]

/-- C8 witness: with geometries resolved and an accepting service, the
first read computes and caches the map `[0, 1]`, and a second read — even
under a service that now rejects everything — returns the cached map. -/
theorem c8_atom_map_amended_witness :
    atom_map_read demoSvc (demoRxnWith "A <=> B" none none [demoSpcA]
        [demoSpcB] none [] (some 1) none)
      = .ok (demoRxnWith "A <=> B" none none [demoSpcA] [demoSpcB] none []
          (some 1) (some [0, 1]), some [0, 1])
    ∧ atom_map_read demoSvcReject (demoRxnWith "A <=> B" none none [demoSpcA]
        [demoSpcB] none [] (some 1) (some [0, 1]))
      = .ok (demoRxnWith "A <=> B" none none [demoSpcA] [demoSpcB] none []
          (some 1) (some [0, 1]), some [0, 1]) :=
  (c8_atom_map_amended demoSvc demoSvcReject
    (demoRxnWith "A <=> B" none none [demoSpcA] [demoSpcB] none []
      (some 1) none) [0, 1] rfl).2.2.1 (by decide) rfl

end ARC
